import Mathlib

/-!
Verification development for the `bag3_magnetics` polygon coil geometry engine.

The definitions below are shallow embeddings of the python sources:
  * `src/bag3_magnetics/layout/inductor/util.py` (`get_octpath_coord`, `round_up`,
    `IndTemplate.draw_sqr_guardring`, `IndTemplate._draw_ind_ring`,
    `IndTemplate._draw_ind_turn`, `IndTemplate.draw_via`, `IndTemplate.draw_mulvia`)
  * `src/bag3_magnetics/layout/inductor/ind_core.py` (`IndCore.draw_layout`)
  * `src/bag3_magnetics/layout/tcoil_diff/tcoil_core.py` (`TcoilDiffCore.draw_layout`)

Python `//` (floor division) is embedded as `/` on `ℤ` (Euclidean division,
identical to python floor division for the positive divisors used here) and
`%` as `%` on `ℤ`.
Floating point trigonometry is embedded over `ℝ`.
-/

namespace Bag3

/-- An integer layout coordinate pair, as used throughout the python sources. -/
abbrev Pt := ℤ × ℤ

/-- A path (list of points); the sources emit two-point path segments. -/
abbrev Seg := List Pt

/-- `round_up` from `util.py`: ceiling for positive values, floor otherwise
(rounding away from zero). -/
noncomputable def round_up (v : ℝ) : ℤ := if 0 < v then ⌈v⌉ else ⌊v⌋

/-- The `pybag.enum.Orientation` values used by the layout code. -/
inductive Orient
  | R0 | R90 | R180 | R270 | MX | MY | MXR90 | MYR90
  deriving DecidableEq

/-- Python `range(start, stop, step)` for a positive step. -/
def pyRange (start stop step : ℕ) : List ℕ :=
  List.range' start ((stop - start + step - 1) / step) step

/-- Monadic map over `Except`, written by explicit recursion so that proofs can
unfold it; models a python `for` loop that collects results and propagates the
first raised exception. -/
def eMapM {α β : Type} (f : α → Except String β) : List α → Except String (List β)
  | [] => .ok []
  | a :: as =>
    match f a with
    | .error e => .error e
    | .ok b =>
      match eMapM f as with
      | .error e => .error e
      | .ok bs => .ok (b :: bs)

/-! ### Embedding of `get_octpath_coord` (util.py lines 1001-1259) -/

/-- `step_phase = 2 * np.pi / n_side`. -/
noncomputable def step_phase (n : ℕ) : ℝ := 2 * Real.pi / n

/-- `init_phase = -np.pi / 2 + step_phase / 2`. -/
noncomputable def init_phase (n : ℕ) : ℝ := -Real.pi / 2 + step_phase n / 2

/-- `turn_rad = round_up(radius - turn * (width + spacing) / np.sin(-init_phase))`. -/
noncomputable def turn_rad (radius : ℤ) (turn : ℕ) (n : ℕ) (width spacing : ℤ) : ℤ :=
  round_up ((radius : ℝ) - (turn : ℝ) * ((width : ℝ) + (spacing : ℝ)) / Real.sin (-init_phase n))

/-- `offset = round_up(radius * np.cos(np.pi / n_side)) + width // 2`. -/
noncomputable def oct_offset (radius : ℤ) (n : ℕ) (width : ℤ) : ℤ :=
  round_up ((radius : ℝ) * Real.cos (Real.pi / n)) + width / 2

/-- Vertex `i` of the turn: `(round_up(turn_rad*cos(init+step*i))+offset,
round_up(turn_rad*sin(init+step*i))+offset)`. -/
noncomputable def oct_vert (radius : ℤ) (turn : ℕ) (n : ℕ) (width spacing : ℤ) (i : ℕ) : Pt :=
  ((round_up ((turn_rad radius turn n width spacing : ℝ) *
      Real.cos (init_phase n + step_phase n * i)) + oct_offset radius n width),
   (round_up ((turn_rad radius turn n width spacing : ℝ) *
      Real.sin (init_phase n + step_phase n * i)) + oct_offset radius n width))

/-- Result record of `get_octpath_coord` (the 7-tuple it returns). -/
structure OctResult where
  path_coord : List Seg
  lead_coord : Option (List Pt)
  tail_coord : List Seg
  top_coord : Option (List Pt)
  bot_coord : Option (List Pt)
  via_coord : List Pt
  center_tap_coord : Option Pt

/-- Shallow embedding of `get_octpath_coord` (util.py lines 1001-1259).
Raises (`Except.error`) exactly at the final `else` branch for unhandled modes. -/
noncomputable def get_octpath_coord (radius : ℤ) (turn : ℕ) (n_side : ℕ)
    (width spacing bot_open top_open via_width : ℤ) (mode : ℕ) : Except String OctResult :=
  let n := n_side
  let c : ℕ → Pt := oct_vert radius turn n width spacing
  let tr : ℤ := turn_rad radius turn n width spacing
  let off : ℤ := oct_offset radius n width
  -- sin of the mid phase, used by all four bridge-distance formulas
  let midSin : ℝ := Real.sin (init_phase n + step_phase n * (n / 2 : ℕ))
  let sh : ℝ := ((spacing : ℝ) + (width : ℝ)) / Real.sin (-init_phase n)
  -- top bridge, even turn index: pitch of this and previous turn
  let top_bdg0 : ℤ := round_up ((tr : ℝ) * midSin - ((tr : ℝ) - sh * midSin))
  let top_coord0 : List Pt :=
    [((-top_bdg0) / 2 + off, (c (n / 2)).2), (top_bdg0 / 2 + off, (c (n / 2)).2)]
  let top_r_coord0 : Pt :=
    (top_bdg0 / 2 + width + (via_width - width) / 2 + off, (c (n / 2)).2)
  let top_l_coord0 : Pt :=
    ((-top_bdg0) / 2 - width - (via_width - width) / 2 + off, (c (n / 2)).2)
  -- top bridge, odd turn index: pitch of this and next turn
  let top_bdg1 : ℤ := round_up (((tr : ℝ) + sh) * midSin - (tr : ℝ) * midSin)
  let top_coord1 : List Pt :=
    [((-top_bdg1) / 2 + off, (c (n / 2)).2), (top_bdg1 / 2 + off, (c (n / 2)).2)]
  let top_r_coord1 : Pt :=
    (top_bdg1 / 2 + width + (via_width - width) / 2 + off, (c (n / 2)).2)
  let top_l_coord1 : Pt :=
    ((-top_bdg1) / 2 - width - (via_width - width) / 2 + off, (c (n / 2)).2)
  -- bottom bridge, even turn number: pitch of this and next turn
  let bot_bdg0 : ℤ := round_up (((tr : ℝ) + sh) * midSin - (tr : ℝ) * midSin)
  let bot_coord0 : List Pt :=
    [((-bot_bdg0) / 2 + off, (c 0).2), (bot_bdg0 / 2 + off, (c 0).2)]
  let bot_r_coord0 : Pt :=
    (bot_bdg0 / 2 + width + (via_width - width) / 2 + off, (c 0).2)
  let bot_l_coord0 : Pt :=
    ((-bot_bdg0) / 2 - width - (via_width - width) / 2 + off, (c 0).2)
  -- bottom bridge, odd turn number: pitch of this and previous turn
  let bot_bdg1 : ℤ := round_up ((tr : ℝ) * midSin - ((tr : ℝ) - sh) * midSin)
  let bot_coord1 : List Pt :=
    [((-bot_bdg1) / 2 + off, (c 0).2), (bot_bdg1 / 2 + off, (c 0).2)]
  let bot_r_coord1 : Pt :=
    (bot_bdg1 / 2 + width + (via_width - width) / 2 + off, (c 0).2)
  let bot_l_coord1 : Pt :=
    ((-bot_bdg1) / 2 - width - (via_width - width) / 2 + off, (c 0).2)
  -- lead coordinate for R0
  let lead_coord0 : List Pt :=
    [((-bot_open) / 2 + off, (c 0).2), (bot_open / 2 + off, (c 0).2)]
  let bot_open_coord : List Pt := lead_coord0
  let top_open_coord : List Pt :=
    [((-top_open) / 2 + off, (c (n / 2)).2), (top_open / 2 + off, (c (n / 2)).2)]
  -- lead coordinate for R270
  let lead_coord270 : List Pt :=
    [((c (n * 3 / 4)).1, (-bot_open) / 2 + off), ((c (n * 3 / 4)).1, bot_open / 2 + off)]
  let left_open_coord : List Pt := lead_coord270
  if mode = 0 then      -- Mode 0: a turn w/o any break
    .ok { path_coord :=
            (List.range n).flatMap (fun i =>
              if i = n - 1 then [[c (n - 1), c 0]] else [[c i, c (i + 1)]]),
          lead_coord := none, tail_coord := [], top_coord := none, bot_coord := none,
          via_coord := [], center_tap_coord := none }
  else if mode = 1 then -- Mode 1: outer turn with only lead break
    .ok { path_coord :=
            (List.range n).flatMap (fun i =>
              if i = n - 1 then [[c (n - 1), lead_coord0.headD (0, 0)],
                                 [lead_coord0.getD 1 (0, 0), c 0]]
              else [[c i, c (i + 1)]]),
          lead_coord := some lead_coord0, tail_coord := [], top_coord := none,
          bot_coord := none, via_coord := [],
          center_tap_coord := some (off, (c (n / 2)).2) }
  else if mode = 2 then -- Mode 2: outer turn with lead and bridge break
    .ok { path_coord :=
            (List.range n).flatMap (fun i =>
              if i = n / 2 - 1 then [[c (n / 2 - 1), top_r_coord0],
                                     [top_coord0.headD (0, 0), c (n / 2)]]
              else if i = n - 1 then [[c (n - 1), lead_coord0.headD (0, 0)],
                                      [lead_coord0.getD 1 (0, 0), c 0]]
              else [[c i, c (i + 1)]]),
          lead_coord := some lead_coord0,
          tail_coord := [[top_r_coord0, top_coord0.getD 1 (0, 0)]],
          top_coord := some top_coord0, bot_coord := none,
          via_coord := [top_r_coord0], center_tap_coord := none }
  else if mode = 3 then -- Mode 3: inner turn on odd index, bridge break at top
    .ok { path_coord :=
            (List.range n).flatMap (fun i =>
              if i = n / 2 - 1 then [[c (n / 2 - 1), top_coord1.getD 1 (0, 0)],
                                     [top_l_coord1, c (n / 2)]]
              else if i = n - 1 then [[c i, c 0]]
              else [[c i, c (i + 1)]]),
          lead_coord := none,
          tail_coord := [[top_coord1.headD (0, 0), top_l_coord1]],
          top_coord := some top_coord1, bot_coord := none,
          via_coord := [top_l_coord1], center_tap_coord := none }
  else if mode = 4 then -- Mode 4: inner turn on even index, bridge break at bottom
    .ok { path_coord :=
            (List.range n).flatMap (fun i =>
              if i = n - 1 then [[c (n - 1), bot_l_coord0],
                                 [bot_coord0.getD 1 (0, 0), c 0]]
              else [[c i, c (i + 1)]]),
          lead_coord := none,
          tail_coord := [[bot_l_coord0, bot_coord0.headD (0, 0)]],
          top_coord := none, bot_coord := some bot_coord0,
          via_coord := [bot_l_coord0], center_tap_coord := none }
  else if mode = 5 then -- Mode 5: other turns on even index
    .ok { path_coord :=
            (List.range n).flatMap (fun i =>
              if i = n / 2 - 1 then [[c (n / 2 - 1), top_r_coord0],
                                     [top_coord0.headD (0, 0), c (n / 2)]]
              else if i = n - 1 then [[c (n - 1), bot_l_coord0],
                                      [bot_coord0.getD 1 (0, 0), c 0]]
              else [[c i, c (i + 1)]]),
          lead_coord := none,
          tail_coord := [[top_r_coord0, top_coord0.getD 1 (0, 0)],
                         [bot_l_coord0, bot_coord0.headD (0, 0)]],
          top_coord := some top_coord0, bot_coord := some bot_coord0,
          via_coord := [top_r_coord0, bot_l_coord0], center_tap_coord := none }
  else if mode = 6 then -- Mode 6: other turns on odd index
    .ok { path_coord :=
            (List.range n).flatMap (fun i =>
              if i = n / 2 - 1 then [[c (n / 2 - 1), top_coord1.getD 1 (0, 0)],
                                     [top_l_coord1, c (n / 2)]]
              else if i = n - 1 then [[c (n - 1), bot_coord1.headD (0, 0)],
                                      [bot_r_coord1, c 0]]
              else [[c i, c (i + 1)]]),
          lead_coord := none,
          tail_coord := [[top_coord1.headD (0, 0), top_l_coord1],
                         [bot_coord1.getD 1 (0, 0), bot_r_coord1]],
          top_coord := some top_coord1, bot_coord := some bot_coord1,
          via_coord := [top_l_coord1, bot_r_coord1], center_tap_coord := none }
  else if mode = 7 then -- Mode 7: a turn without the last side
    .ok { path_coord :=
            (List.range n).flatMap (fun i =>
              if i = n - 1 then [] else [[c i, c (i + 1)]]),
          lead_coord := none, tail_coord := [], top_coord := none, bot_coord := none,
          via_coord := [], center_tap_coord := none }
  else if mode = 8 then -- Mode 8: a turn without the mid side
    .ok { path_coord :=
            (List.range n).flatMap (fun i =>
              if i = n - 1 then [[c (n - 1), c 0]]
              else if i = n / 2 - 1 then []
              else [[c i, c (i + 1)]]),
          lead_coord := none, tail_coord := [], top_coord := none, bot_coord := none,
          via_coord := [], center_tap_coord := none }
  else if mode = 9 then -- Mode 9: a turn without the mid and last side
    .ok { path_coord :=
            (List.range n).flatMap (fun i =>
              if i = n - 1 ∨ i = n / 2 - 1 then [] else [[c i, c (i + 1)]]),
          lead_coord := none, tail_coord := [], top_coord := none, bot_coord := none,
          via_coord := [], center_tap_coord := none }
  else if mode = 10 then -- Mode 10: a turn with top open
    .ok { path_coord :=
            (List.range n).flatMap (fun i =>
              if i = n - 1 then [[c (n - 1), c 0]]
              else if i = n / 2 - 1 then [[c (n / 2 - 1), top_open_coord.getD 1 (0, 0)],
                                          [top_open_coord.headD (0, 0), c (n / 2)]]
              else [[c i, c (i + 1)]]),
          lead_coord := none, tail_coord := [], top_coord := none, bot_coord := none,
          via_coord := [], center_tap_coord := none }
  else if mode = 11 then -- Mode 11: a turn with bot open
    .ok { path_coord :=
            (List.range n).flatMap (fun i =>
              if i = n - 1 then [[c (n - 1), bot_open_coord.headD (0, 0)],
                                 [bot_open_coord.getD 1 (0, 0), c 0]]
              else [[c i, c (i + 1)]]),
          lead_coord := none, tail_coord := [], top_coord := none, bot_coord := none,
          via_coord := [], center_tap_coord := none }
  else if mode = 12 then -- Mode 12: a turn with top/bot open
    .ok { path_coord :=
            (List.range n).flatMap (fun i =>
              if i = n - 1 then [[c (n - 1), bot_open_coord.headD (0, 0)],
                                 [bot_open_coord.getD 1 (0, 0), c 0]]
              else if i = n / 2 - 1 then [[c (n / 2 - 1), top_open_coord.getD 1 (0, 0)],
                                          [top_open_coord.headD (0, 0), c (n / 2)]]
              else [[c i, c (i + 1)]]),
          lead_coord := none, tail_coord := [], top_coord := none, bot_coord := none,
          via_coord := [], center_tap_coord := none }
  else if mode = 14 then -- Mode 14: a turn with left open
    .ok { path_coord :=
            (List.range n).flatMap (fun i =>
              if i = n * 3 / 4 - 1 then [[c i, left_open_coord.getD 1 (0, 0)],
                                         [left_open_coord.headD (0, 0), c (i + 1)]]
              else [[c i, c ((i + 1) % n)]]),
          lead_coord := some lead_coord270, tail_coord := [], top_coord := none,
          bot_coord := none, via_coord := [],
          center_tap_coord := some ((c (n / 4)).1, off) }
  else
    .error "Other modes are not done yet."

/-! ### Embedding of `IndTemplate._draw_ind_turn` mode dispatch (util.py lines 77-93) -/

/-- Mode selection of `_draw_ind_turn` (util.py lines 77-93): raises
`NotImplementedError` for a single-turn coil with an orientation other than R0/R270. -/
def draw_ind_turn_mode (turn n_turn : ℕ) (orient : Orient) : Except String ℕ :=
  if turn = 0 ∧ n_turn = 1 then
    if orient = .R0 then .ok 1
    else if orient = .R270 then .ok 14
    else .error "orient is not supported yet."
  else if turn = 0 ∧ 1 < n_turn then .ok 2
  else if turn = n_turn - 1 ∧ n_turn % 2 = 0 then .ok 3
  else if turn = n_turn - 1 ∧ n_turn % 2 ≠ 0 then .ok 4
  else if turn % 2 = 0 then .ok 5
  else .ok 6

/-! ### Spec-modelled `compute_vertices` -/

/-- Modelled from the spec: `compute_vertices` is imported by `ind_core.py` and
`tcoil_core.py` from `.util`, but the function itself is not present in the
sources. Per spec section 4.1: per turn the effective radius is
`outer_radius - turn_index*(width + spacing)` divided by `cos(pi/side_count)`;
vertices lie at uniform phase steps `2*pi/side_count` starting at
`-pi/2 + pi/side_count` (anti-clockwise from below the positive x-axis);
coordinates round away from zero; for `radius_y` different from `radius_x`
the vertical half of the vertex set (indices in `[n/4, 3n/4)`) is shifted by
`2*(radius_y - radius_x)`; the vertices are offset so the coil occupies the
box `[0, 2*radius_x+width] x [0, 2*radius_y+width]` as `IndCore.draw_layout`
assumes. -/
noncomputable def compute_vertices (n_sides n_turns : ℕ) (radius_x radius_y width spacing : ℤ) :
    List (List Pt) :=
  (List.range n_turns).map (fun (t : ℕ) =>
    (List.range n_sides).map (fun (i : ℕ) =>
      let ρ : ℝ := ((radius_x : ℝ) - (t : ℝ) * ((width : ℝ) + (spacing : ℝ))) /
        Real.cos (Real.pi / n_sides)
      let φ : ℝ := init_phase n_sides + step_phase n_sides * (i : ℝ)
      let dy : ℤ := if n_sides / 4 ≤ i ∧ i < 3 * n_sides / 4 then 2 * (radius_y - radius_x) else 0
      (round_up (ρ * Real.cos φ) + radius_x + width / 2,
       round_up (ρ * Real.sin φ) + radius_x + width / 2 + dy)))

/-! ### Embedding of the `IndCore.draw_layout` / `TcoilDiffCore.draw_layout`
feasibility checks (ind_core.py lines 75-87, tcoil_core.py lines 104-116) -/

/-- Identifies which of the three `ValueError` raise sites of the feasibility
checks fired (the python messages interpolate parameter values; the constructor
records the raise site). -/
inductive CoreErr
  | termSp   -- 'Either increase radius_x or decrease term_sp'
  | bridge   -- 'Either increase radius_x or decrease n_turns'
  | radY     -- 'Either increase radius_y or decrease n_turns'
  deriving DecidableEq

/-- `vertices[0][0][0] - vertices[0][-1][0]`, the outer turn's bottom x-span. -/
def outerSpan (vertices : List (List Pt)) : ℤ :=
  ((vertices.headD []).headD (0, 0)).1 - ((vertices.headD []).getLastD (0, 0)).1

/-- `vertices[-1][0][0] - vertices[-1][-1][0]`, the innermost turn's bottom x-span. -/
def innerSpan (vertices : List (List Pt)) : ℤ :=
  ((vertices.getLastD []).headD (0, 0)).1 - ((vertices.getLastD []).getLastD (0, 0)).1

/-- The three feasibility checks of `IndCore.draw_layout` (ind_core.py lines
75-87), in source order; the inner-turn bridge clearance bound is
`bridge_sp + 4 * width` with `bridge_sp = spacing + 3 * width`. -/
def ind_core_checks (vertices : List (List Pt)) (n_turns : ℕ) (v_bot v_top : ℕ)
    (width spacing term_sp : ℤ) : Except CoreErr Unit :=
  if outerSpan vertices < term_sp + 4 * width then .error .termSp
  else if 1 < n_turns ∧ innerSpan vertices < (spacing + 3 * width) + 4 * width then
    .error .bridge
  else if ((vertices.getLastD []).getD v_top (0, 0)).2 -
      ((vertices.getLastD []).getD v_bot (0, 0)).2 < width then .error .radY
  else .ok ()

/-- The three feasibility checks of `TcoilDiffCore.draw_layout` (tcoil_core.py
lines 104-116); identical to `ind_core_checks` except the inner-turn bridge
clearance bound is `bridge_sp + 2 * width`. -/
def tcoil_core_checks (vertices : List (List Pt)) (n_turns : ℕ) (v_bot v_top : ℕ)
    (width spacing term_sp : ℤ) : Except CoreErr Unit :=
  if outerSpan vertices < term_sp + 4 * width then .error .termSp
  else if 1 < n_turns ∧ innerSpan vertices < (spacing + 3 * width) + 2 * width then
    .error .bridge
  else if ((vertices.getLastD []).getD v_top (0, 0)).2 -
      ((vertices.getLastD []).getD v_bot (0, 0)).2 < width then .error .radY
  else .ok ()

/-- `IndCore.draw_layout`'s feasibility stage applied to the vertices produced
by `compute_vertices`. -/
noncomputable def ind_core_feas (n_sides n_turns : ℕ) (v_bot v_top : ℕ)
    (radius_x radius_y width spacing term_sp : ℤ) : Except CoreErr Unit :=
  ind_core_checks (compute_vertices n_sides n_turns radius_x radius_y width spacing)
    n_turns v_bot v_top width spacing term_sp

/-! ### Embedding of the bridge-emission stage of `IndCore.draw_layout`
(ind_core.py lines 119-162) -/

/-- One gap-closing connection emitted by the bridge stage: either a direct
coil-layer path (innermost turn), or a crossing bridge consisting of a
coil-layer path, a bridge-layer path and two vias. -/
structure Conn where
  onBridgeLayer : Bool
  nVias : ℕ
  deriving DecidableEq

/-- Top-gap connections emitted by `IndCore.draw_layout` (lines 123-140): a
direct innermost connection when `n_turns` is odd, plus one crossing bridge per
`tidx in range(1, n_turns, 2)` when `n_turns > 1`. -/
def top_conns (n_turns : ℕ) : List Conn :=
  (if n_turns % 2 = 1 then [⟨false, 0⟩] else []) ++
  (if 1 < n_turns then (pyRange 1 n_turns 2).map (fun _ => ⟨true, 2⟩) else [])

/-- Bottom-gap connections emitted by `IndCore.draw_layout` (lines 142-162): a
direct innermost connection when `n_turns` is even, plus one crossing bridge
per `tidx in range(1, n_turns - 1, 2)`, all under `n_turns > 1`. -/
def bot_conns (n_turns : ℕ) : List Conn :=
  if 1 < n_turns then
    (if n_turns % 2 = 0 then [⟨false, 0⟩] else []) ++
    (pyRange 1 (n_turns - 1) 2).map (fun _ => ⟨true, 2⟩)
  else []

/-- Number of bridge-layer paths emitted by the bridge stage. -/
def bridgeLayerPaths (n_turns : ℕ) : ℕ :=
  ((top_conns n_turns ++ bot_conns n_turns).filter (fun c => c.onBridgeLayer)).length

/-- Number of vias emitted by the bridge stage. -/
def bridgeVias (n_turns : ℕ) : ℕ :=
  ((top_conns n_turns ++ bot_conns n_turns).map (fun c => c.nVias)).sum

/-! ### Embedding of `IndTemplate.draw_via` / `draw_mulvia` (util.py lines 815-867) -/

/-- `draw_via` (util.py lines 815-852): raises unless the two layers are
adjacent; returns the (bottom, top) layer pair of the emitted via. -/
def draw_via (layid1 layid2 : ℤ) : Except String (ℤ × ℤ) :=
  if |layid1 - layid2| ≠ 1 then .error "draw_via function is only for adjacent layers."
  else .ok (min layid1 layid2, max layid1 layid2)

/-- `draw_mulvia` (util.py lines 854-867): one via when the layers are adjacent,
a stack of `top_layid - bot_layid` vias when further apart, and a raise
otherwise (including `top_layid = bot_layid`). -/
def draw_mulvia (bot_layid top_layid : ℤ) : Except String (List (ℤ × ℤ)) :=
  if top_layid - bot_layid = 1 then (draw_via bot_layid top_layid).map (fun v => [v])
  else if 1 < top_layid - bot_layid then
    eMapM (fun i => draw_via (bot_layid + i) (bot_layid + i + 1))
      ((List.range (top_layid - bot_layid).toNat).map (fun (k : ℕ) => (k : ℤ)))
  else .error "Need to make sure top_layid >= bot_layid."

/-! ### Embedding of `IndTemplate.draw_sqr_guardring` (util.py lines 182-277) -/

/-- A via emitted by the guard-ring stitching loop: center, width, height and
the (low, high) layer pair. -/
structure Via where
  cx : ℤ
  cy : ℤ
  vw : ℤ
  vh : ℤ
  lo : ℤ
  hi : ℤ
  deriving DecidableEq

/-- The data collected per path in the guard-ring via loop (util.py lines
255-263): midpoint, direction flag and via width. -/
def collectVia (width : ℤ) (p : Seg) : Pt × ℤ × ℤ :=
  let p0 := p.headD (0, 0)
  let p1 := p.getD 1 (0, 0)
  let ctr : Pt := ((p0.1 + p1.1) / 2, (p0.2 + p1.2) / 2)
  if p0.1 = p1.1 then (ctr, 1, |p0.2 - p1.2| - width * 2)
  else (ctr, 0, |p0.1 - p1.1| - width * 2)

/-- `draw_via` call of the guard-ring loop (util.py lines 273-276). -/
def mkGuardVia (width : ℤ) (v : Pt × ℤ × ℤ) (lay : ℤ) : Via :=
  if v.2.1 = 0 then ⟨v.1.1, v.1.2, v.2.2, width, lay, lay + 1⟩
  else ⟨v.1.1, v.1.2, width, v.2.2, lay, lay + 1⟩

/-- One iteration of the guard-ring via drawing loop (util.py lines 268-276);
the first component of the state is the (mutable) `lay_id`. -/
def guardViaStep (width ind : ℤ) (st : ℤ × List Via) (v : Pt × ℤ × ℤ) : ℤ × List Via :=
  if st.1 = ind then
    if ind % 2 = 0 then st
    else (st.1 - 1, st.2 ++ [mkGuardVia width v (st.1 - 1)])
  else (st.1, st.2 ++ [mkGuardVia width v st.1])

/-- The via-drawing loop for one layer of the guard ring (util.py lines
251-276), including the mutable `lay_id` decrement: nothing is collected when
`lay_id + 1 == ind_layid`; on the coil layer itself all vias are skipped when
`ind_layid` is even, else drawn one layer down. -/
def viasForLayer (width : ℤ) (paths : List Seg) (lay ind : ℤ) : List Via :=
  let collected : List (Pt × ℤ × ℤ) :=
    if lay + 1 ≠ ind then paths.map (collectVia width) else []
  (collected.foldl (guardViaStep width ind) (lay, ([] : List Via))).2

/-- Break-mode selection per guard-ring layer (util.py lines 224-237). -/
def guardMode (ind lay : ℤ) (orient : Orient) : Except String ℕ :=
  if lay = ind then
    match orient with
    | .R0 | .MY => .ok 11
    | .R180 | .MX => .ok 10
    | .R90 => .ok 13
    | .R270 => .ok 14
    | .MXR90 | .MYR90 => .error "Not supported"
  else .ok 0

/-- The body of the per-layer loop of `draw_sqr_guardring` (util.py lines
224-241): select the break mode for this layer, then fetch its ring polygon
from `get_octpath_coord` with `n_side = 4`, propagating any raise. -/
noncomputable def guardLayerPath (radius width opening ind_layid lay : ℤ)
    (orient : Orient) : Except String (List Seg) :=
  match guardMode ind_layid lay orient with
  | .error e => .error e
  | .ok mode =>
    match get_octpath_coord radius 0 4 width 0 opening 0 0 mode with
    | .error e => .error e
    | .ok res => .ok res.path_coord

/-- Shallow embedding of `draw_sqr_guardring` (util.py lines 182-277): layer
list checks, per-layer ring polygon via `get_octpath_coord` with `n_side = 4`
and `radius = round_up(halflen * sqrt(2))`, the returned guard-ring length
`path_arr[-1][0][0][0]`, and the stitching vias. -/
noncomputable def draw_sqr_guardring (halflen width opening ind_layid : ℤ)
    (layer_list : List ℤ) (orient : Orient) :
    Except String (List (List Seg) × ℤ × List Via) :=
  if layer_list.length = 0 then .error "Layer list should not be empty"
  else if (layer_list.length : ℤ) ≠ layer_list.getLastD 0 - layer_list.headD 0 + 1 then
    .error "All layer should be adjacent, from low to high"
  else
    match eMapM (fun lay =>
        guardLayerPath (round_up ((halflen : ℝ) * Real.sqrt 2)) width opening ind_layid
          lay orient)
        layer_list with
    | .error e => .error e
    | .ok path_arr =>
      let length := (((path_arr.getLastD []).headD []).headD (0, 0)).1
      let vias := (List.zip path_arr layer_list).flatMap
        (fun pl => viasForLayer width pl.1 pl.2 ind_layid)
      .ok (path_arr, length, vias)

/-! ### Embedding of `IndTemplate._draw_ind_ring` (util.py lines 108-121, 180) -/

/-- Shallow embedding of `_draw_ind_ring` (util.py lines 108-121, 180): raises
when `n_conn == 1`, then draws `turn` concentric guard rings with half-lengths
`halflen + idx * (width + spacing)`, returning the ring path arrays and ring
lengths. `conn_width` and `pin_len` are carried but unused, as the python body
that used them is commented out. -/
noncomputable def draw_ind_ring (halflen width spacing : ℤ) (turn : ℕ)
    (n_conn conn_width opening ind_layid : ℤ) (layer_list : List ℤ) (pin_len : ℤ)
    (orient : Orient) : Except String (List (List (List Seg)) × List ℤ) :=
  if n_conn = 1 then .error "number of connection points should be larger than 1."
  else
    -- pitch = width + spacing
    match eMapM (fun (idx : ℕ) =>
        draw_sqr_guardring (halflen + (idx : ℤ) * (width + spacing)) width opening ind_layid
          layer_list orient)
      (List.range turn) with
    | .error e => .error e
    | .ok rings => .ok (rings.map (fun r => r.1), rings.map (fun r => r.2.1))

/-! ### Named projections of `get_octpath_coord` components, used in statements -/

/-- The vertex ring (`coord` list) built by `get_octpath_coord` (util.py lines
1028-1032): one vertex per side. -/
noncomputable def oct_coord_list (radius : ℤ) (turn : ℕ) (n : ℕ) (width spacing : ℤ) :
    List Pt :=
  (List.range n).map (oct_vert radius turn n width spacing)

/-- The `lead_coord0` pair of `get_octpath_coord` (util.py line 1069). -/
noncomputable def lead_coord_R0 (radius : ℤ) (turn : ℕ) (n : ℕ) (width spacing bot_open : ℤ) :
    List Pt :=
  [((-bot_open) / 2 + oct_offset radius n width,
    (oct_vert radius turn n width spacing 0).2),
   (bot_open / 2 + oct_offset radius n width,
    (oct_vert radius turn n width spacing 0).2)]

/-- The mode-0 path list of `get_octpath_coord` (util.py lines 1093-1098). -/
noncomputable def path_mode0 (radius : ℤ) (turn : ℕ) (n : ℕ) (width spacing : ℤ) : List Seg :=
  (List.range n).flatMap (fun i =>
    if i = n - 1 then
      [[oct_vert radius turn n width spacing (n - 1), oct_vert radius turn n width spacing 0]]
    else [[oct_vert radius turn n width spacing i, oct_vert radius turn n width spacing (i + 1)]])

/-- The path list shared by mode 1 (util.py lines 1104-1109) and mode 11
(util.py lines 1228-1233): the last side is replaced by two segments that stop
at the bottom opening pair. -/
noncomputable def path_botbreak (radius : ℤ) (turn : ℕ) (n : ℕ)
    (width spacing bot_open : ℤ) : List Seg :=
  (List.range n).flatMap (fun i =>
    if i = n - 1 then
      [[oct_vert radius turn n width spacing (n - 1),
        (lead_coord_R0 radius turn n width spacing bot_open).headD (0, 0)],
       [(lead_coord_R0 radius turn n width spacing bot_open).getD 1 (0, 0),
        oct_vert radius turn n width spacing 0]]
    else [[oct_vert radius turn n width spacing i, oct_vert radius turn n width spacing (i + 1)]])

/-- The per-layer ring polygon drawn by `draw_sqr_guardring` for orientation R0:
mode 11 (bottom open) on the coil layer, mode 0 (closed) elsewhere. -/
noncomputable def guardPath (radius width opening ind lay : ℤ) : List Seg :=
  if lay = ind then path_botbreak radius 0 4 width 0 opening else path_mode0 radius 0 4 width 0

/-- A polygon given as a segment list is closed: consecutive segments share an
endpoint and the last segment ends where the first begins. -/
def polyClosed (paths : List Seg) : Prop :=
  (∀ i, i + 1 < paths.length →
    (paths.getD i []).getLastD (0, 0) = (paths.getD (i + 1) []).headD (0, 0)) ∧
  (paths ≠ [] →
    (paths.getD (paths.length - 1) []).getLastD (0, 0) = (paths.getD 0 []).headD (0, 0))

/-- The lead-escape gap width of a bottom-open square ring polygon: the
x-distance from the end of the fourth drawn segment to the start of the fifth. -/
def ringGapWidth (paths : List Seg) : ℤ :=
  ((paths.getD 4 []).headD (0, 0)).1 - ((paths.getD 3 []).getLastD (0, 0)).1

/-- Written from the spec words of claim C1: an effective radius equal to
`(outer_radius - t*(w + s))` divided by `cos(pi/n)`, rounded away from zero.
(To be compared against the source's `turn_rad`.) -/
noncomputable def spec_effective_radius (radius : ℤ) (turn : ℕ) (n : ℕ) (w s : ℤ) : ℤ :=
  round_up (((radius : ℝ) - (turn : ℝ) * ((w : ℝ) + (s : ℝ))) / Real.cos (Real.pi / n))

/-- The nominal (pre-rounding) mid-edge radius of turn `t`: the source's
pre-rounding effective radius `radius - t*(w+s)/cos(pi/n)` scaled by
`cos(pi/n)`, which places edge midpoints at this distance from the center. -/
noncomputable def mid_edge_nominal (radius : ℤ) (turn : ℕ) (n : ℕ) (w s : ℤ) : ℝ :=
  ((radius : ℝ) - (turn : ℝ) * ((w : ℝ) + (s : ℝ)) / Real.cos (Real.pi / n)) *
    Real.cos (Real.pi / n)

/-! ### Basic lemmas about `round_up`, the involved trigonometry, and `eMapM` -/

theorem round_up_intCast (k : ℤ) : round_up (k : ℝ) = k := by
  unfold round_up
  split <;> simp

theorem round_up_pos {x : ℝ} (h : 0 < x) : round_up x = ⌈x⌉ := if_pos h

theorem sqrt_two_sq : Real.sqrt 2 * Real.sqrt 2 = 2 :=
  Real.mul_self_sqrt (by norm_num)

theorem sqrt_two_pos : 0 < Real.sqrt 2 := Real.sqrt_pos.mpr (by norm_num)

theorem sqrt_two_lt_two : Real.sqrt 2 < 2 := by
  nlinarith [sqrt_two_sq, sqrt_two_pos]

theorem one_lt_sqrt_two : 1 < Real.sqrt 2 := by
  nlinarith [sqrt_two_sq, sqrt_two_pos]

theorem init_phase_eq (n : ℕ) : init_phase n = -(Real.pi / 2) + Real.pi / n := by
  unfold init_phase step_phase
  ring

theorem sin_neg_init (n : ℕ) : Real.sin (-init_phase n) = Real.cos (Real.pi / n) := by
  have h : -init_phase n = Real.pi / 2 - Real.pi / n := by
    rw [init_phase_eq]; ring
  rw [h, Real.sin_pi_div_two_sub]

theorem cos_pi_div_four_pos : 0 < Real.cos (Real.pi / 4) := by
  rw [Real.cos_pi_div_four]
  positivity

theorem cos_pi_div_four_ne : Real.cos (Real.pi / 4) ≠ 0 := ne_of_gt cos_pi_div_four_pos

theorem div_cos_pi_div_four (a : ℝ) : a / Real.cos (Real.pi / 4) = a * Real.sqrt 2 := by
  rw [Real.cos_pi_div_four]
  rw [div_div_eq_mul_div, div_eq_iff (ne_of_gt sqrt_two_pos), mul_assoc, sqrt_two_sq]

theorem step_phase_four : step_phase 4 = Real.pi / 2 := by
  unfold step_phase
  push_cast
  ring

theorem init_phase_four : init_phase 4 = -(Real.pi / 4) := by
  rw [init_phase_eq]
  push_cast
  ring

/-- The four vertex phases of a square turn. -/
theorem phase_four (i : ℕ) :
    init_phase 4 + step_phase 4 * i = -(Real.pi / 4) + Real.pi / 2 * i := by
  rw [init_phase_four, step_phase_four]

theorem cos_phase40 : Real.cos (init_phase 4 + step_phase 4 * (0 : ℕ)) =
    Real.cos (Real.pi / 4) := by
  rw [phase_four]
  push_cast
  rw [show -(Real.pi / 4) + Real.pi / 2 * (0 : ℝ) = -(Real.pi / 4) by ring, Real.cos_neg]

theorem cos_phase41 : Real.cos (init_phase 4 + step_phase 4 * (1 : ℕ)) =
    Real.cos (Real.pi / 4) := by
  rw [phase_four]
  push_cast
  rw [show -(Real.pi / 4) + Real.pi / 2 * (1 : ℝ) = Real.pi / 4 by ring]

theorem cos_phase42 : Real.cos (init_phase 4 + step_phase 4 * (2 : ℕ)) =
    -Real.cos (Real.pi / 4) := by
  rw [phase_four]
  push_cast
  rw [show -(Real.pi / 4) + Real.pi / 2 * (2 : ℝ) = Real.pi - Real.pi / 4 by ring,
    Real.cos_pi_sub]

theorem cos_phase43 : Real.cos (init_phase 4 + step_phase 4 * (3 : ℕ)) =
    -Real.cos (Real.pi / 4) := by
  rw [phase_four]
  push_cast
  rw [show -(Real.pi / 4) + Real.pi / 2 * (3 : ℝ) = Real.pi + Real.pi / 4 by ring,
    Real.cos_add, Real.cos_pi, Real.sin_pi]
  ring

theorem sin_phase40 : Real.sin (init_phase 4 + step_phase 4 * (0 : ℕ)) =
    -Real.sin (Real.pi / 4) := by
  rw [phase_four]
  push_cast
  rw [show -(Real.pi / 4) + Real.pi / 2 * (0 : ℝ) = -(Real.pi / 4) by ring, Real.sin_neg]

theorem sin_phase41 : Real.sin (init_phase 4 + step_phase 4 * (1 : ℕ)) =
    Real.sin (Real.pi / 4) := by
  rw [phase_four]
  push_cast
  rw [show -(Real.pi / 4) + Real.pi / 2 * (1 : ℝ) = Real.pi / 4 by ring]

/-- Helper for evaluating `⌈a * √2⌉` from integer square bounds. -/
theorem ceil_mul_sqrt_two {a b : ℤ} (ha : 0 ≤ a) (h1 : (b - 1) ^ 2 < 2 * a ^ 2)
    (hb : 0 ≤ b) (h2 : 2 * a ^ 2 ≤ b ^ 2) : ⌈(a : ℝ) * Real.sqrt 2⌉ = b := by
  rw [Int.ceil_eq_iff]
  have ha' : (0 : ℝ) ≤ (a : ℝ) := by exact_mod_cast ha
  have hs := sqrt_two_sq
  have hsp := sqrt_two_pos
  constructor
  · by_cases hb1 : b - 1 < 0
    · have : ((b : ℝ) - 1) < 0 := by exact_mod_cast hb1
      nlinarith [mul_nonneg ha' hsp.le]
    · push_neg at hb1
      have h1' : ((b : ℝ) - 1) ^ 2 < 2 * (a : ℝ) ^ 2 := by exact_mod_cast h1
      have hb1' : (0 : ℝ) ≤ (b : ℝ) - 1 := by exact_mod_cast hb1
      nlinarith [mul_nonneg ha' hsp.le]
  · have h2' : 2 * (a : ℝ) ^ 2 ≤ (b : ℝ) ^ 2 := by exact_mod_cast h2
    have hb' : (0 : ℝ) ≤ (b : ℝ) := by exact_mod_cast hb
    nlinarith [mul_nonneg ha' hsp.le]

theorem eMapM_ok_of {α β : Type} {f : α → Except String β} {g : α → β} :
    ∀ {l : List α}, (∀ a ∈ l, f a = .ok (g a)) → eMapM f l = .ok (l.map g)
  | [], _ => rfl
  | a :: as, h => by
    have ha := h a (List.mem_cons_self a as)
    have has : eMapM f as = .ok (as.map g) :=
      eMapM_ok_of (fun x hx => h x (List.mem_cons_of_mem a hx))
    rw [eMapM, ha, has]
    rfl

theorem eMapM_error {α β : Type} {f : α → Except String β} {e : String} :
    ∀ {l : List α}, eMapM f l = .error e → ∃ a ∈ l, f a = .error e
  | [], h => by simp [eMapM] at h
  | a :: as, h => by
    cases hfa : f a with
    | error e2 =>
      rw [eMapM, hfa] at h
      simp at h
      exact ⟨a, List.mem_cons_self a as, by rw [hfa, h]⟩
    | ok b =>
      cases has : eMapM f as with
      | error e2 =>
        rw [eMapM, hfa, has] at h
        simp at h
        obtain ⟨x, hx, hfx⟩ := eMapM_error (f := f) (has.trans (by rw [h]))
        exact ⟨x, List.mem_cons_of_mem a hx, hfx⟩
      | ok bs =>
        rw [eMapM, hfa, has] at h
        simp at h

/-- The state of the via loop never changes off the coil layer. -/
theorem foldl_guardViaStep_ne {w ind lay : ℤ} (h : lay ≠ ind) :
    ∀ (l : List (Pt × ℤ × ℤ)) (acc : List Via),
      l.foldl (guardViaStep w ind) (lay, acc) =
        (lay, acc ++ l.map (fun v => mkGuardVia w v lay))
  | [], acc => by simp
  | v :: vs, acc => by
    have hstep : guardViaStep w ind (lay, acc) v = (lay, acc ++ [mkGuardVia w v lay]) := by
      unfold guardViaStep
      simp [h]
    rw [List.foldl_cons, hstep, foldl_guardViaStep_ne h vs]
    simp

/-- On an even coil layer every via is skipped. -/
theorem foldl_guardViaStep_even {w ind : ℤ} (h : ind % 2 = 0) :
    ∀ (l : List (Pt × ℤ × ℤ)) (acc : List Via),
      l.foldl (guardViaStep w ind) (ind, acc) = (ind, acc)
  | [], acc => by simp
  | v :: vs, acc => by
    have hstep : guardViaStep w ind (ind, acc) v = (ind, acc) := by
      unfold guardViaStep
      simp [h]
    rw [List.foldl_cons, hstep, foldl_guardViaStep_even h vs]

theorem viasForLayer_below {w : ℤ} {paths : List Seg} {lay ind : ℤ} (h : lay + 1 = ind) :
    viasForLayer w paths lay ind = [] := by
  simp only [viasForLayer]
  rw [if_neg (by simp [h])]
  simp

theorem viasForLayer_mid {w : ℤ} {paths : List Seg} {lay ind : ℤ} (h1 : lay ≠ ind)
    (h2 : lay + 1 ≠ ind) :
    viasForLayer w paths lay ind = paths.map (fun p => mkGuardVia w (collectVia w p) lay) := by
  simp only [viasForLayer]
  rw [if_pos h2, foldl_guardViaStep_ne h1]
  simp [List.map_map]

theorem viasForLayer_coil_even {w : ℤ} {paths : List Seg} {ind : ℤ}
    (h : ind % 2 = 0) : viasForLayer w paths ind ind = [] := by
  simp only [viasForLayer]
  rw [if_pos (by omega : ind + 1 ≠ ind), foldl_guardViaStep_even h]

theorem viasForLayer_coil_odd {w : ℤ} {paths : List Seg} {ind : ℤ}
    (h : ind % 2 ≠ 0) :
    viasForLayer w paths ind ind =
      paths.map (fun p => mkGuardVia w (collectVia w p) (ind - 1)) := by
  simp only [viasForLayer]
  rw [if_pos (by omega : ind + 1 ≠ ind)]
  cases paths with
  | nil => simp
  | cons p ps =>
    simp only [List.map_cons, List.foldl_cons]
    have hstep : guardViaStep w ind (ind, []) (collectVia w p) =
        (ind - 1, [mkGuardVia w (collectVia w p) (ind - 1)]) := by
      unfold guardViaStep
      simp [h]
    rw [hstep, foldl_guardViaStep_ne (by omega)]
    simp [List.map_map]

theorem mkGuardVia_lo (w : ℤ) (v : Pt × ℤ × ℤ) (lay : ℤ) : (mkGuardVia w v lay).lo = lay := by
  unfold mkGuardVia
  split <;> rfl

theorem mkGuardVia_hi (w : ℤ) (v : Pt × ℤ × ℤ) (lay : ℤ) :
    (mkGuardVia w v lay).hi = lay + 1 := by
  unfold mkGuardVia
  split <;> rfl

theorem zip_self_map {α β : Type} (f : α → β) :
    ∀ l : List α, List.zip (l.map f) l = l.map (fun a => (f a, a))
  | [] => rfl
  | a :: as => by simp [List.zip_cons_cons, zip_self_map f as]

/-! ### List access helpers -/

theorem getD_map_range {α : Type} (g : ℕ → α) {n i : ℕ} (h : i < n) (d : α) :
    ((List.range n).map g).getD i d = g i := by
  rw [List.getD_eq_getElem?_getD, List.getElem?_map, List.getElem?_range h]
  rfl

theorem getLastD_map {α β : Type} (f : α → β) (d : β) (d2 : α) :
    ∀ l : List α, l ≠ [] → (l.map f).getLastD d = f (l.getLastD d2)
  | [], h => absurd rfl h
  | [a], _ => rfl
  | a :: b :: as, _ => by
    have := getLastD_map f d d2 (b :: as) (by simp)
    simpa using this

theorem getLastD_map_range {α : Type} (g : ℕ → α) {n : ℕ} (h : 0 < n) (d : α) :
    ((List.range n).map g).getLastD d = g (n - 1) := by
  rw [getLastD_map g d 0 (List.range n) (by simp; omega)]
  congr 1
  rw [List.getLastD_eq_getLast?, List.getLast?_eq_getElem?]
  simp only [List.length_range]
  rw [List.getElem?_range (by omega)]
  rfl

/-! ### Reduction lemmas for `get_octpath_coord` -/

theorem oct0_eq (radius : ℤ) (turn : ℕ) (n : ℕ) (w s bo t_o vw : ℤ) :
    get_octpath_coord radius turn n w s bo t_o vw 0 =
      .ok { path_coord := path_mode0 radius turn n w s,
            lead_coord := none, tail_coord := [], top_coord := none, bot_coord := none,
            via_coord := [], center_tap_coord := none } := rfl

theorem oct1_eq (radius : ℤ) (turn : ℕ) (n : ℕ) (w s bo t_o vw : ℤ) :
    get_octpath_coord radius turn n w s bo t_o vw 1 =
      .ok { path_coord := path_botbreak radius turn n w s bo,
            lead_coord := some (lead_coord_R0 radius turn n w s bo),
            tail_coord := [], top_coord := none, bot_coord := none, via_coord := [],
            center_tap_coord :=
              some (oct_offset radius n w, (oct_vert radius turn n w s (n / 2)).2) } := rfl

theorem oct11_eq (radius : ℤ) (turn : ℕ) (n : ℕ) (w s bo t_o vw : ℤ) :
    get_octpath_coord radius turn n w s bo t_o vw 11 =
      .ok { path_coord := path_botbreak radius turn n w s bo,
            lead_coord := none, tail_coord := [], top_coord := none, bot_coord := none,
            via_coord := [], center_tap_coord := none } := rfl

theorem oct13_eq (radius : ℤ) (turn : ℕ) (n : ℕ) (w s bo t_o vw : ℤ) :
    get_octpath_coord radius turn n w s bo t_o vw 13 =
      .error "Other modes are not done yet." := rfl

theorem oct2_lead (radius : ℤ) (turn : ℕ) (n : ℕ) (w s bo t_o vw : ℤ) :
    ∃ res, get_octpath_coord radius turn n w s bo t_o vw 2 = .ok res ∧
      res.lead_coord = some (lead_coord_R0 radius turn n w s bo) :=
  ⟨_, rfl, rfl⟩

theorem oct_tail_err (radius : ℤ) (turn : ℕ) (n : ℕ) (w s bo t_o vw : ℤ) (k : ℕ) :
    get_octpath_coord radius turn n w s bo t_o vw (k + 15) =
      .error "Other modes are not done yet." := rfl

theorem oct_ok_of_handled (radius : ℤ) (turn : ℕ) (n : ℕ) (w s bo t_o vw : ℤ) {mode : ℕ}
    (hm : mode ≤ 12 ∨ mode = 14) :
    (get_octpath_coord radius turn n w s bo t_o vw mode).isOk = true := by
  rcases hm with hm | rfl
  · interval_cases mode <;> rfl
  · rfl

theorem oct_err_of_unhandled (radius : ℤ) (turn : ℕ) (n : ℕ) (w s bo t_o vw : ℤ) {mode : ℕ}
    (hm : ¬(mode ≤ 12 ∨ mode = 14)) :
    get_octpath_coord radius turn n w s bo t_o vw mode =
      .error "Other modes are not done yet." := by
  by_cases h13 : mode = 13
  · subst h13
    rfl
  · obtain ⟨k, rfl⟩ : ∃ k, mode = k + 15 := ⟨mode - 15, by omega⟩
    exact oct_tail_err radius turn n w s bo t_o vw k

theorem oct_isOk_iff (radius : ℤ) (turn : ℕ) (n : ℕ) (w s bo t_o vw : ℤ) (mode : ℕ) :
    (get_octpath_coord radius turn n w s bo t_o vw mode).isOk = true ↔
      (mode ≤ 12 ∨ mode = 14) := by
  constructor
  · intro h
    by_contra hm
    rw [oct_err_of_unhandled radius turn n w s bo t_o vw hm] at h
    simp [Except.isOk, Except.toBool] at h
  · exact oct_ok_of_handled radius turn n w s bo t_o vw

theorem oct_error_msg {radius : ℤ} {turn : ℕ} {n : ℕ} {w s bo t_o vw : ℤ} {mode : ℕ}
    {e : String} (h : get_octpath_coord radius turn n w s bo t_o vw mode = .error e) :
    e = "Other modes are not done yet." := by
  by_cases hm : mode ≤ 12 ∨ mode = 14
  · have := oct_ok_of_handled radius turn n w s bo t_o vw hm
    rw [h] at this
    simp [Except.isOk, Except.toBool] at this
  · have h2 := oct_err_of_unhandled radius turn n w s bo t_o vw hm
    rw [h] at h2
    exact (Except.error.injEq _ _ ).mp h2.symm |>.symm

/-- The mode-0 path list as a uniform map: segment `i` joins vertex `i` to
vertex `(i+1) % n`. -/
theorem flatMap_single_map {α β : Type} (f : α → β) :
    ∀ l : List α, (l.flatMap fun x => [f x]) = l.map f
  | [] => rfl
  | a :: as => by simp [flatMap_single_map f as]

theorem path_mode0_eq_map (radius : ℤ) (turn : ℕ) {n : ℕ} (hn : 0 < n) (w s : ℤ) :
    path_mode0 radius turn n w s =
      (List.range n).map (fun i =>
        [oct_vert radius turn n w s i, oct_vert radius turn n w s ((i + 1) % n)]) := by
  unfold path_mode0
  rw [← flatMap_single_map (fun i =>
    [oct_vert radius turn n w s i, oct_vert radius turn n w s ((i + 1) % n)]) (List.range n)]
  apply List.flatMap_congr
  intro i hi
  rw [List.mem_range] at hi
  by_cases h : i = n - 1
  · subst h
    rw [if_pos rfl]
    have h0 : (n - 1 + 1) % n = 0 := by
      have he : n - 1 + 1 = n := by omega
      rw [he, Nat.mod_self]
    rw [h0]
  · rw [if_neg h]
    have h1 : (i + 1) % n = i + 1 := Nat.mod_eq_of_lt (by omega)
    rw [h1]

/-! ### Evaluation lemmas for square (n = 4) geometry -/

/-- For a square, the source's `turn_rad` divides the shrink term by
`cos(pi/4)`, i.e. multiplies it by `sqrt 2`. -/
theorem turn_rad_four_eval (radius : ℤ) (turn : ℕ) (w s : ℤ) :
    turn_rad radius turn 4 w s =
      round_up ((radius : ℝ) - (turn : ℝ) * ((w : ℝ) + (s : ℝ)) * Real.sqrt 2) := by
  unfold turn_rad
  rw [sin_neg_init]
  congr 1
  have h4 : Real.pi / ((4 : ℕ) : ℝ) = Real.pi / 4 := by norm_num
  rw [h4, div_cos_pi_div_four]

/-! ### Claim C7 -/

/-- C7: for side_count in {4, 8}, the no-break mode (mode 0) of
`get_octpath_coord` returns exactly `n` path segments, segment `i` joining
vertex `i` to vertex `(i+1) mod n`; consecutive segments share an endpoint and
the last point of the final segment equals the first point of the first
segment, forming a closed cycle. -/
theorem C7_mode0_closed_cycle (radius : ℤ) (turn : ℕ) (n_side : ℕ) (w s bo t_o vw : ℤ)
    (hn : n_side = 4 ∨ n_side = 8) :
    ∃ res, get_octpath_coord radius turn n_side w s bo t_o vw 0 = .ok res ∧
      res.path_coord.length = n_side ∧
      (∀ i < n_side, res.path_coord.getD i [] =
        [oct_vert radius turn n_side w s i,
         oct_vert radius turn n_side w s ((i + 1) % n_side)]) ∧
      (∀ i, i + 1 < n_side →
        (res.path_coord.getD i []).getLastD (0, 0) =
          (res.path_coord.getD (i + 1) []).headD (0, 0)) ∧
      (res.path_coord.getD (n_side - 1) []).getLastD (0, 0) =
        (res.path_coord.getD 0 []).headD (0, 0) := by
  have hn0 : 0 < n_side := by rcases hn with rfl | rfl <;> norm_num
  refine ⟨_, oct0_eq radius turn n_side w s bo t_o vw, ?_, ?_, ?_, ?_⟩
  · simp [path_mode0_eq_map radius turn hn0 w s]
  · intro i hi
    simp only [path_mode0_eq_map radius turn hn0 w s]
    rw [getD_map_range _ hi]
  · intro i hi
    simp only [path_mode0_eq_map radius turn hn0 w s]
    rw [getD_map_range _ (show i < n_side by omega),
      getD_map_range _ (show i + 1 < n_side by omega)]
    simp
    rw [Nat.mod_eq_of_lt (by omega)]
  · simp only [path_mode0_eq_map radius turn hn0 w s]
    rw [getD_map_range _ (show n_side - 1 < n_side by omega), getD_map_range _ hn0]
    simp
    rw [show (n_side - 1 + 1) % n_side = 0 by
      rw [Nat.sub_add_cancel (by omega), Nat.mod_self]]

/-- Witness for C7 at a concrete input. -/
theorem C7_witness :
    ∃ res, get_octpath_coord 100 0 4 2 1 5 0 0 0 = .ok res ∧
      res.path_coord.length = 4 ∧
      (∀ i < 4, res.path_coord.getD i [] =
        [oct_vert 100 0 4 2 1 i, oct_vert 100 0 4 2 1 ((i + 1) % 4)]) ∧
      (∀ i, i + 1 < 4 →
        (res.path_coord.getD i []).getLastD (0, 0) =
          (res.path_coord.getD (i + 1) []).headD (0, 0)) ∧
      (res.path_coord.getD (4 - 1) []).getLastD (0, 0) =
        (res.path_coord.getD 0 []).headD (0, 0) :=
  C7_mode0_closed_cycle 100 0 4 2 1 5 0 0 (Or.inl rfl)

/-! ### Claim C8 -/

/-- C8 (amended): for the R0 lead-break modes (mode 1 and mode 2) the returned
lead coordinates both lie on the bottom edge (they share the bottom vertex's y
coordinate), and their x coordinates satisfy
`x1 + x2 = 2 * center_x - (opening mod 2)`: the pair is symmetric about the
vertical centerline exactly when the opening width is even, and one unit short
of symmetric when it is odd. -/
theorem C8_lead_symmetry (radius : ℤ) (turn : ℕ) (n : ℕ) (w s bo t_o vw : ℤ) (mode : ℕ)
    (hm : mode = 1 ∨ mode = 2) :
    ∃ res, get_octpath_coord radius turn n w s bo t_o vw mode = .ok res ∧
      res.lead_coord = some (lead_coord_R0 radius turn n w s bo) ∧
      ((lead_coord_R0 radius turn n w s bo).headD (0, 0)).2 =
        (oct_vert radius turn n w s 0).2 ∧
      ((lead_coord_R0 radius turn n w s bo).getD 1 (0, 0)).2 =
        (oct_vert radius turn n w s 0).2 ∧
      ((lead_coord_R0 radius turn n w s bo).headD (0, 0)).1 +
          ((lead_coord_R0 radius turn n w s bo).getD 1 (0, 0)).1 =
        2 * oct_offset radius n w - bo % 2 := by
  have hsum : ((lead_coord_R0 radius turn n w s bo).headD (0, 0)).1 +
      ((lead_coord_R0 radius turn n w s bo).getD 1 (0, 0)).1 =
      2 * oct_offset radius n w - bo % 2 := by
    simp [lead_coord_R0]
    omega
  rcases hm with rfl | rfl
  · exact ⟨_, oct1_eq radius turn n w s bo t_o vw, rfl, rfl, rfl, hsum⟩
  · obtain ⟨res, hres, hlead⟩ := oct2_lead radius turn n w s bo t_o vw
    exact ⟨res, hres, hlead, rfl, rfl, hsum⟩

/-- Witness for C8 at a concrete input. -/
theorem C8_witness :
    ∃ res, get_octpath_coord 100 0 4 2 1 6 0 0 1 = .ok res ∧
      res.lead_coord = some (lead_coord_R0 100 0 4 2 1 6) ∧
      ((lead_coord_R0 100 0 4 2 1 6).headD (0, 0)).2 = (oct_vert 100 0 4 2 1 0).2 ∧
      ((lead_coord_R0 100 0 4 2 1 6).getD 1 (0, 0)).2 = (oct_vert 100 0 4 2 1 0).2 ∧
      ((lead_coord_R0 100 0 4 2 1 6).headD (0, 0)).1 +
          ((lead_coord_R0 100 0 4 2 1 6).getD 1 (0, 0)).1 =
        2 * oct_offset 100 4 2 - 6 % 2 :=
  C8_lead_symmetry 100 0 4 2 1 6 0 0 1 (Or.inl rfl)

/-- C8 counterexample: with an odd opening width (5), the two lead x
coordinates returned by mode 1 do not sum to `2 * center_x`: the claimed exact
symmetry about the vertical centerline fails. -/
theorem C8_counterexample :
    ∃ res, get_octpath_coord 100 0 4 2 1 5 0 0 1 = .ok res ∧
      res.lead_coord = some (lead_coord_R0 100 0 4 2 1 5) ∧
      ((lead_coord_R0 100 0 4 2 1 5).headD (0, 0)).1 +
          ((lead_coord_R0 100 0 4 2 1 5).getD 1 (0, 0)).1 ≠
        2 * oct_offset 100 4 2 := by
  refine ⟨_, oct1_eq 100 0 4 2 1 5 0 0, rfl, ?_⟩
  simp [lead_coord_R0]
  omega

/-! ### Claim C1 -/

/-- C1 (amended): for side_count in {4, 8} the vertex ring has exactly `n`
vertices; the effective radius is `radius - t*(w+s)/cos(pi/n)` rounded away
from zero (the division applies to the shrink term only, not to the whole
difference); consequently the nominal (pre-rounding) mid-edge radius decreases
by exactly `w + s` between consecutive turns, strictly when `0 < w + s`. -/
theorem C1_effective_radius (radius : ℤ) (turn : ℕ) (n : ℕ) (w s : ℤ)
    (hn : n = 4 ∨ n = 8) (hp : 0 < w + s) :
    (oct_coord_list radius turn n w s).length = n ∧
    turn_rad radius turn n w s =
      round_up ((radius : ℝ) - (turn : ℝ) * ((w : ℝ) + (s : ℝ)) / Real.cos (Real.pi / n)) ∧
    mid_edge_nominal radius (turn + 1) n w s =
      mid_edge_nominal radius turn n w s - ((w : ℝ) + (s : ℝ)) ∧
    mid_edge_nominal radius (turn + 1) n w s < mid_edge_nominal radius turn n w s := by
  have hc : 0 < Real.cos (Real.pi / n) := by
    rcases hn with rfl | rfl
    · rw [show Real.pi / ((4 : ℕ) : ℝ) = Real.pi / 4 by norm_num]
      exact cos_pi_div_four_pos
    · rw [show Real.pi / ((8 : ℕ) : ℝ) = Real.pi / 8 by norm_num]
      apply Real.cos_pos_of_mem_Ioo
      constructor <;> nlinarith [Real.pi_pos]
  have h3 : mid_edge_nominal radius (turn + 1) n w s =
      mid_edge_nominal radius turn n w s - ((w : ℝ) + (s : ℝ)) := by
    unfold mid_edge_nominal
    rw [show ((turn + 1 : ℕ) : ℝ) = (turn : ℝ) + 1 by push_cast; ring]
    field_simp
    ring
  refine ⟨by simp [oct_coord_list], ?_, h3, ?_⟩
  · unfold turn_rad
    rw [sin_neg_init]
  · rw [h3]
    have hps : (0 : ℝ) < (w : ℝ) + (s : ℝ) := by
      have : ((0 : ℤ) : ℝ) < ((w + s : ℤ) : ℝ) := by exact_mod_cast hp
      push_cast at this
      linarith
    linarith

/-- Witness for C1 at a concrete input. -/
theorem C1_witness :
    (oct_coord_list 100 1 4 2 1).length = 4 ∧
    mid_edge_nominal 100 2 4 2 1 = mid_edge_nominal 100 1 4 2 1 - 3 ∧
    mid_edge_nominal 100 2 4 2 1 < mid_edge_nominal 100 1 4 2 1 := by
  have h := C1_effective_radius 100 1 4 2 1 (Or.inl rfl) (by norm_num)
  have h3 := h.2.2.1
  have h4 := h.2.2.2
  norm_num at h3 h4
  exact ⟨h.1, h3, h4⟩

/-- C1 counterexample: at `radius = 100`, `turn = 1`, `n = 4`, `w = 2`,
`s = 1` the source's effective radius is `round_up(100 - 3*sqrt 2) = 96`,
whereas the claimed formula `(radius - t*(w+s))/cos(pi/4)` rounds to
`ceil(97*sqrt 2) = 138`. -/
theorem C1_counterexample :
    turn_rad 100 1 4 2 1 ≠ spec_effective_radius 100 1 4 2 1 := by
  have h1 : turn_rad 100 1 4 2 1 = 96 := by
    rw [turn_rad_four_eval]
    rw [show ((100 : ℤ) : ℝ) - ((1 : ℕ) : ℝ) * (((2 : ℤ) : ℝ) + ((1 : ℤ) : ℝ)) * Real.sqrt 2 =
      100 - 3 * Real.sqrt 2 by push_cast; ring]
    rw [round_up_pos (by nlinarith [sqrt_two_lt_two, sqrt_two_pos])]
    rw [Int.ceil_eq_iff]
    constructor
    · push_cast
      nlinarith [sqrt_two_sq, sqrt_two_pos]
    · push_cast
      nlinarith [sqrt_two_sq, sqrt_two_pos]
  have h2 : spec_effective_radius 100 1 4 2 1 = 138 := by
    unfold spec_effective_radius
    rw [show Real.pi / ((4 : ℕ) : ℝ) = Real.pi / 4 by norm_num]
    rw [show (((100 : ℤ) : ℝ) - ((1 : ℕ) : ℝ) * (((2 : ℤ) : ℝ) + ((1 : ℤ) : ℝ))) /
        Real.cos (Real.pi / 4) = ((97 : ℤ) : ℝ) * Real.sqrt 2 by
      rw [div_cos_pi_div_four]
      push_cast
      ring]
    rw [round_up_pos (by positivity)]
    exact ceil_mul_sqrt_two (by norm_num) (by norm_num) (by norm_num) (by norm_num)
  rw [h1, h2]
  norm_num

/-! ### Evaluation of the spec-modelled `compute_vertices` for rectangles -/

theorem headD_map_range {α : Type} (g : ℕ → α) {n : ℕ} (h : 0 < n) (d : α) :
    ((List.range n).map g).headD d = g 0 := by
  obtain ⟨m, rfl⟩ : ∃ m, n = m + 1 := ⟨n - 1, by omega⟩
  rw [List.range_succ_eq_map]
  simp

theorem div_mul_neg_cancel (a c : ℝ) (hc : c ≠ 0) : a / c * -c = -a := by
  field_simp

/-- For a rectangle (`n_sides = 4`) the spec-modelled vertices are exact
integers: vertex 0 sits at `x = (rx - t*(w+s)) + rx + w/2` and vertex 3 at
`x = -(rx - t*(w+s)) + rx + w/2`. -/
theorem compute_vertices_four_x (rx ry w s : ℤ) (nt t : ℕ) (ht : t < nt) :
    ((((compute_vertices 4 nt rx ry w s).getD t []).headD (0, 0)).1 =
      (rx - (t : ℤ) * (w + s)) + rx + w / 2) ∧
    ((((compute_vertices 4 nt rx ry w s).getD t []).getLastD (0, 0)).1 =
      -(rx - (t : ℤ) * (w + s)) + rx + w / 2) := by
  have hc4 : Real.pi / ((4 : ℕ) : ℝ) = Real.pi / 4 := by norm_num
  have hcast : ((rx : ℝ) - (t : ℝ) * ((w : ℝ) + (s : ℝ))) =
      (((rx - (t : ℤ) * (w + s)) : ℤ) : ℝ) := by push_cast; ring
  unfold compute_vertices
  rw [getD_map_range _ ht]
  constructor
  · rw [headD_map_range _ (by norm_num)]
    simp only [hc4, cos_phase40]
    rw [hcast, div_mul_cancel₀ _ cos_pi_div_four_ne, round_up_intCast]
  · rw [getLastD_map_range _ (by norm_num)]
    simp only [hc4]
    rw [show (4 : ℕ) - 1 = 3 from rfl, cos_phase43]
    rw [hcast, div_mul_neg_cancel _ _ cos_pi_div_four_ne]
    rw [show -(((rx - (t : ℤ) * (w + s)) : ℤ) : ℝ) = ((-(rx - (t : ℤ) * (w + s)) : ℤ) : ℝ) by
      push_cast; ring]
    rw [round_up_intCast]

theorem rect_outerSpan (rx ry w s : ℤ) (nt : ℕ) (h : 0 < nt) :
    outerSpan (compute_vertices 4 nt rx ry w s) = 2 * rx := by
  have hx := compute_vertices_four_x rx ry w s nt 0 h
  unfold outerSpan
  have hhead : (compute_vertices 4 nt rx ry w s).headD [] =
      (compute_vertices 4 nt rx ry w s).getD 0 [] := by
    unfold compute_vertices
    rw [headD_map_range _ h, getD_map_range _ h]
  rw [hhead, hx.1, hx.2]
  push_cast
  ring

theorem rect_innerSpan (rx ry w s : ℤ) (nt : ℕ) (h : 0 < nt) :
    innerSpan (compute_vertices 4 nt rx ry w s) =
      2 * (rx - ((nt - 1 : ℕ) : ℤ) * (w + s)) := by
  have hx := compute_vertices_four_x rx ry w s nt (nt - 1) (by omega)
  unfold innerSpan
  have hlast : (compute_vertices 4 nt rx ry w s).getLastD [] =
      (compute_vertices 4 nt rx ry w s).getD (nt - 1) [] := by
    unfold compute_vertices
    rw [getLastD_map_range _ h, getD_map_range _ (by omega)]
  rw [hlast, hx.1, hx.2]
  ring

/-! ### Claim C2 -/

/-- C2 (amended): the inner-turn bridge-break ValueError of
`IndCore.draw_layout` is raised if and only if the outer terminal check passed,
`n_turns > 1`, and the innermost turn's span is below
`bridge_sp + 4*width = spacing + 7*width` (not `spacing + 5*width` as
claimed); `TcoilDiffCore.draw_layout` uses the bound `bridge_sp + 2*width =
spacing + 5*width`. -/
theorem C2_bridge_threshold (vertices : List (List Pt)) (n_turns : ℕ) (v_bot v_top : ℕ)
    (w s term_sp : ℤ) :
    (ind_core_checks vertices n_turns v_bot v_top w s term_sp = .error .bridge ↔
      (¬(outerSpan vertices < term_sp + 4 * w) ∧ 1 < n_turns ∧
        innerSpan vertices < (s + 3 * w) + 4 * w)) ∧
    (tcoil_core_checks vertices n_turns v_bot v_top w s term_sp = .error .bridge ↔
      (¬(outerSpan vertices < term_sp + 4 * w) ∧ 1 < n_turns ∧
        innerSpan vertices < (s + 3 * w) + 2 * w)) := by
  constructor
  · unfold ind_core_checks
    split_ifs <;> simp_all
  · unfold tcoil_core_checks
    split_ifs <;> simp_all

/-- C2 counterexample: a Rectangle coil with `n_turns = 2`, `radius_x =
radius_y = 45`, `width = 10`, `spacing = 5`, `term_sp = 10` has an innermost
span of 60, which satisfies the claimed bound `spacing + 3*width + 2*width =
55`, yet `IndCore.draw_layout` raises the inner-turn bridge ValueError (its
actual bound is `bridge_sp + 4*width = 75`). -/
theorem C2_counterexample :
    ind_core_feas 4 2 0 1 45 45 10 5 10 = .error .bridge ∧
    innerSpan (compute_vertices 4 2 45 45 10 5) = 60 ∧
    ¬(innerSpan (compute_vertices 4 2 45 45 10 5) < 5 + 3 * 10 + 2 * 10) := by
  have hin : innerSpan (compute_vertices 4 2 45 45 10 5) = 60 := by
    rw [rect_innerSpan 45 45 10 5 2 (by norm_num)]
    norm_num
  have hout : outerSpan (compute_vertices 4 2 45 45 10 5) = 90 := by
    rw [rect_outerSpan 45 45 10 5 2 (by norm_num)]
    norm_num
  refine ⟨?_, hin, by rw [hin]; norm_num⟩
  unfold ind_core_feas ind_core_checks
  rw [if_neg (by rw [hout]; norm_num), if_pos (by rw [hin]; norm_num)]

/-! ### Claim C3 -/

/-- C3: for `n_turns = 1` the bridge stage of `IndCore.draw_layout` emits no
bridge-layer path and no via, and the inner-turn bridge-clearance check can
never raise; for `n_turns = 2` exactly one top gap-closing connection (the
crossing bridge) and exactly one bottom gap-closing connection (the direct
innermost connection) are emitted. -/
theorem C3_boundary :
    bridgeLayerPaths 1 = 0 ∧ bridgeVias 1 = 0 ∧
    (∀ (vertices : List (List Pt)) (v_bot v_top : ℕ) (w s term_sp : ℤ),
      ind_core_checks vertices 1 v_bot v_top w s term_sp ≠ .error .bridge) ∧
    (top_conns 2).length = 1 ∧ (bot_conns 2).length = 1 := by
  refine ⟨by decide, by decide, ?_, by decide, by decide⟩
  intro vertices v_bot v_top w s term_sp
  unfold ind_core_checks
  split_ifs with h1 h2 h3 <;> simp_all

/-! ### Claim C6 -/

/-- C6: `draw_via` raises exactly when the two layers are not adjacent;
`draw_mulvia` with `top_layid > bot_layid` emits exactly `top_layid -
bot_layid` vias, the k-th connecting layer `bot+k` to `bot+k+1`, and raises
whenever `top_layid ≤ bot_layid` (including equality, despite the message only
demanding `top_layid >= bot_layid`). -/
theorem C6_via_adjacency :
    (∀ layid1 layid2 : ℤ,
      (∃ e, draw_via layid1 layid2 = .error e) ↔ |layid1 - layid2| ≠ 1) ∧
    (∀ bot_layid top_layid : ℤ, bot_layid < top_layid →
      draw_mulvia bot_layid top_layid =
        .ok ((List.range (top_layid - bot_layid).toNat).map
          (fun (k : ℕ) => ((bot_layid + k : ℤ), (bot_layid + k + 1 : ℤ)))) ∧
      (((List.range (top_layid - bot_layid).toNat).map
          (fun (k : ℕ) => ((bot_layid + k : ℤ), (bot_layid + k + 1 : ℤ)))).length : ℤ) =
        top_layid - bot_layid) ∧
    (∀ bot_layid top_layid : ℤ, top_layid ≤ bot_layid →
      draw_mulvia bot_layid top_layid =
        .error "Need to make sure top_layid >= bot_layid.") := by
  refine ⟨?_, ?_, ?_⟩
  · intro l1 l2
    unfold draw_via
    split_ifs with h
    · exact ⟨fun _ => h, fun _ => ⟨_, rfl⟩⟩
    · simp [h]
  · intro bot top h
    have hvia : ∀ k : ℤ, draw_via (bot + k) (bot + k + 1) = .ok (bot + k, bot + k + 1) := by
      intro k
      unfold draw_via
      rw [if_neg (by rw [show bot + k - (bot + k + 1) = -1 from by ring]; norm_num)]
      rw [min_eq_left (by omega), max_eq_right (by omega)]
    constructor
    · unfold draw_mulvia
      by_cases h1 : top - bot = 1
      · rw [if_pos h1]
        have htop : top = bot + 1 := by omega
        subst htop
        have hN : ((bot + 1 : ℤ) - bot).toNat = 1 := by omega
        rw [hN]
        have hdv : draw_via bot (bot + 1) = .ok (bot, bot + 1) := by
          unfold draw_via
          rw [if_neg (by rw [show bot - (bot + 1) = -1 from by ring]; norm_num),
            min_eq_left (by omega), max_eq_right (by omega)]
        rw [hdv]
        simp [Except.map, List.range_succ]
      · rw [if_neg h1, if_pos (by omega)]
        rw [eMapM_ok_of (g := fun k : ℤ => (bot + k, bot + k + 1)) (fun a _ => hvia a)]
        rw [List.map_map]
        rfl
    · rw [List.length_map, List.length_range]
      omega
  · intro bot top h
    unfold draw_mulvia
    rw [if_neg (by omega), if_neg (by omega)]

/-- Witness for C6 at concrete inputs. -/
theorem C6_witness :
    (∃ e, draw_via 3 6 = .error e) ∧
    draw_mulvia 4 7 =
      .ok ((List.range ((7 - 4 : ℤ)).toNat).map (fun k => (4 + k, 4 + k + 1))) ∧
    draw_mulvia 5 5 = .error "Need to make sure top_layid >= bot_layid." :=
  ⟨(C6_via_adjacency.1 3 6).mpr (by norm_num),
   (C6_via_adjacency.2.1 4 7 (by norm_num)).1,
   C6_via_adjacency.2.2 5 5 (by norm_num)⟩

/-! ### Guard-ring lemma layer -/

theorem getD_map_lt {α β : Type} (f : α → β) (l : List α) {j : ℕ} (hj : j < l.length)
    (d : β) (d2 : α) : (l.map f).getD j d = f (l.getD j d2) := by
  rw [List.getD_eq_getElem?_getD, List.getElem?_map, List.getD_eq_getElem?_getD,
    List.getElem?_eq_getElem hj]
  rfl

theorem flatMap_of_map {α β γ : Type} (f : α → β) (g : β → List γ) :
    ∀ l : List α, (l.map f).flatMap g = l.flatMap (fun a => g (f a))
  | [] => rfl
  | a :: as => by simp [flatMap_of_map f g as]

theorem path_mode0_four (R : ℤ) (t : ℕ) (w s : ℤ) :
    path_mode0 R t 4 w s =
      [[oct_vert R t 4 w s 0, oct_vert R t 4 w s 1],
       [oct_vert R t 4 w s 1, oct_vert R t 4 w s 2],
       [oct_vert R t 4 w s 2, oct_vert R t 4 w s 3],
       [oct_vert R t 4 w s 3, oct_vert R t 4 w s 0]] := rfl

theorem path_botbreak_four (R : ℤ) (t : ℕ) (w s bo : ℤ) :
    path_botbreak R t 4 w s bo =
      [[oct_vert R t 4 w s 0, oct_vert R t 4 w s 1],
       [oct_vert R t 4 w s 1, oct_vert R t 4 w s 2],
       [oct_vert R t 4 w s 2, oct_vert R t 4 w s 3],
       [oct_vert R t 4 w s 3, ((-bo) / 2 + oct_offset R 4 w, (oct_vert R t 4 w s 0).2)],
       [(bo / 2 + oct_offset R 4 w, (oct_vert R t 4 w s 0).2), oct_vert R t 4 w s 0]] := rfl

theorem guardMode_coil_R0 (ind : ℤ) : guardMode ind ind .R0 = .ok 11 := by
  unfold guardMode
  rw [if_pos rfl]

theorem guardMode_coil_R90 (ind : ℤ) : guardMode ind ind .R90 = .ok 13 := by
  unfold guardMode
  rw [if_pos rfl]

theorem guardMode_off {ind lay : ℤ} (h : lay ≠ ind) (orient : Orient) :
    guardMode ind lay orient = .ok 0 := by
  unfold guardMode
  rw [if_neg h]

theorem guardMode_error {ind lay : ℤ} {orient : Orient} {e : String}
    (h : guardMode ind lay orient = .error e) : e = "Not supported" := by
  unfold guardMode at h
  split_ifs at h
  cases orient <;> simp_all

theorem guardLayerPath_R0 (R w o ind lay : ℤ) :
    guardLayerPath R w o ind lay .R0 = .ok (guardPath R w o ind lay) := by
  unfold guardLayerPath guardPath
  by_cases hc : lay = ind
  · subst hc
    rw [guardMode_coil_R0, if_pos rfl]
    rfl
  · rw [guardMode_off hc, if_neg hc]
    rfl

theorem guardLayerPath_R90_coil (R w o ind : ℤ) :
    guardLayerPath R w o ind ind .R90 = .error "Other modes are not done yet." := by
  unfold guardLayerPath
  rw [guardMode_coil_R90]
  rfl

theorem guardLayerPath_R90_off (R w o ind lay : ℤ) (h : lay ≠ ind) :
    guardLayerPath R w o ind lay .R90 = .ok (path_mode0 R 0 4 w 0) := by
  unfold guardLayerPath
  rw [guardMode_off h]
  rfl

theorem guardLayerPath_error {R w o ind lay : ℤ} {orient : Orient} {e : String}
    (h : guardLayerPath R w o ind lay orient = .error e) :
    e = "Not supported" ∨ e = "Other modes are not done yet." := by
  unfold guardLayerPath at h
  cases hg : guardMode ind lay orient with
  | error e2 =>
    rw [hg] at h
    simp at h
    left
    rw [← h]
    exact guardMode_error hg
  | ok mode =>
    rw [hg] at h
    simp only [] at h
    cases ho : get_octpath_coord R 0 4 w 0 o 0 0 mode with
    | error e3 =>
      rw [ho] at h
      simp at h
      right
      rw [← h]
      exact oct_error_msg ho
    | ok res =>
      rw [ho] at h
      simp at h

/-- The structure of `draw_sqr_guardring` for orientation R0 once the layer
list checks pass. -/
theorem sqr_R0_eval (hl w o ind : ℤ) (ll : List ℤ) (h1 : ¬(ll.length = 0))
    (h2 : ¬((ll.length : ℤ) ≠ ll.getLastD 0 - ll.headD 0 + 1)) :
    draw_sqr_guardring hl w o ind ll .R0 =
      .ok (ll.map (guardPath (round_up ((hl : ℝ) * Real.sqrt 2)) w o ind),
        ((((ll.map (guardPath (round_up ((hl : ℝ) * Real.sqrt 2)) w o ind)).getLastD
            []).headD []).headD (0, 0)).1,
        ll.flatMap (fun lay =>
          viasForLayer w (guardPath (round_up ((hl : ℝ) * Real.sqrt 2)) w o ind lay)
            lay ind)) := by
  unfold draw_sqr_guardring
  rw [if_neg h1, if_neg h2]
  rw [eMapM_ok_of (g := guardPath (round_up ((hl : ℝ) * Real.sqrt 2)) w o ind)
    (fun lay _ => guardLayerPath_R0 (round_up ((hl : ℝ) * Real.sqrt 2)) w o ind lay)]
  simp only [zip_self_map, flatMap_of_map]

theorem turn_rad_zero (R : ℤ) (n : ℕ) (w s : ℤ) : turn_rad R 0 n w s = R := by
  unfold turn_rad
  norm_num [round_up_intCast]

/-- Evaluating `round_up(R * cos(pi/4))` for `R = round_up(h * sqrt 2)`,
`h >= 1`: the result is exactly `h + 1`. -/
theorem round_up_guard_cos {h : ℤ} (hh : 1 ≤ h) :
    round_up (((round_up ((h : ℝ) * Real.sqrt 2)) : ℝ) * Real.cos (Real.pi / 4)) =
      h + 1 := by
  have hpos : (0 : ℝ) < (h : ℝ) * Real.sqrt 2 := by
    have : (1 : ℝ) ≤ (h : ℝ) := by exact_mod_cast hh
    nlinarith [sqrt_two_pos]
  rw [round_up_pos hpos]
  set R : ℤ := ⌈(h : ℝ) * Real.sqrt 2⌉ with hRdef
  have hirr : Irrational ((h : ℝ) * Real.sqrt 2) := by
    have := irrational_sqrt_two.int_mul (show h ≠ 0 by omega)
    simpa using this
  have hlt : (h : ℝ) * Real.sqrt 2 < (R : ℝ) :=
    lt_of_le_of_ne (Int.le_ceil _) (hirr.ne_int R)
  have hub : (R : ℝ) < (h : ℝ) * Real.sqrt 2 + 1 := Int.ceil_lt_add_one _
  have hRpos : (0 : ℝ) < (R : ℝ) := lt_trans hpos hlt
  rw [Real.cos_pi_div_four, round_up_pos (by positivity)]
  rw [Int.ceil_eq_iff]
  have h1R : (1 : ℝ) ≤ (h : ℝ) := by exact_mod_cast hh
  constructor
  · push_cast
    nlinarith [sqrt_two_sq, sqrt_two_pos]
  · push_cast
    nlinarith [sqrt_two_sq, sqrt_two_pos, sqrt_two_lt_two]

/-- The x coordinate of vertex 0 of a guard ring of half-length `h >= 1`:
exactly `2*h + 2 + w/2`. -/
theorem guard_c0x (h w : ℤ) (hh : 1 ≤ h) :
    (oct_vert (round_up ((h : ℝ) * Real.sqrt 2)) 0 4 w 0 0).1 = 2 * h + 2 + w / 2 := by
  unfold oct_vert oct_offset
  rw [turn_rad_zero, cos_phase40, show Real.pi / ((4 : ℕ) : ℝ) = Real.pi / 4 by norm_num]
  rw [Real.cos_pi_div_four] at *
  have := round_up_guard_cos (h := h) hh
  rw [Real.cos_pi_div_four] at this
  rw [this]
  ring

theorem guardPath_headD (R w o ind lay : ℤ) :
    (guardPath R w o ind lay).headD [] = [oct_vert R 0 4 w 0 0, oct_vert R 0 4 w 0 1] := by
  unfold guardPath
  split
  · rw [path_botbreak_four]
    rfl
  · rw [path_mode0_four]
    rfl

theorem mode0_polyClosed (R : ℤ) (t : ℕ) (w s : ℤ) : polyClosed (path_mode0 R t 4 w s) := by
  rw [path_mode0_four]
  constructor
  · intro i hi
    have hi3 : i < 3 := by
      simp at hi
      omega
    interval_cases i <;> rfl
  · intro _
    rfl

theorem botbreak_not_closed (R : ℤ) (t : ℕ) (w s bo : ℤ) (hbo : 0 < bo) :
    ¬ polyClosed (path_botbreak R t 4 w s bo) := by
  rw [path_botbreak_four]
  intro hpc
  have h3 := hpc.1 3 (by simp)
  simp [Prod.ext_iff] at h3
  omega

theorem botbreak_gap (R : ℤ) (t : ℕ) (w s bo : ℤ) :
    ringGapWidth (path_botbreak R t 4 w s bo) = bo := by
  rw [path_botbreak_four]
  unfold ringGapWidth
  simp
  omega

/-! ### Claim C4 -/

/-- C4 (amended): in `draw_sqr_guardring` (orientation R0), a stitching via
between the layer immediately below the coil layer and the coil layer is
emitted if and only if the coil layer id is odd and the coil layer is in the
layer list; when the coil layer id is even that via is skipped (the reverse of
the claimed parity). -/
theorem C4_stitch_parity (hl w o ind : ℤ) (ll : List ℤ) (h1 : ¬(ll.length = 0))
    (h2 : ¬((ll.length : ℤ) ≠ ll.getLastD 0 - ll.headD 0 + 1)) :
    ∃ paths len vias, draw_sqr_guardring hl w o ind ll .R0 = .ok (paths, len, vias) ∧
      ((∃ v ∈ vias, v.lo = ind - 1 ∧ v.hi = ind) ↔ (ind % 2 = 1 ∧ ind ∈ ll)) := by
  refine ⟨_, _, _, sqr_R0_eval hl w o ind ll h1 h2, ?_⟩
  constructor
  · rintro ⟨v, hv, hlo, hhi⟩
    rw [List.mem_flatMap] at hv
    obtain ⟨lay, hlay, hvin⟩ := hv
    by_cases hli : lay = ind
    · subst hli
      by_cases hev : lay % 2 = 0
      · rw [viasForLayer_coil_even hev] at hvin
        simp at hvin
      · exact ⟨by omega, hlay⟩
    · by_cases hbl : lay + 1 = ind
      · rw [viasForLayer_below hbl] at hvin
        simp at hvin
      · rw [viasForLayer_mid hli hbl] at hvin
        rw [List.mem_map] at hvin
        obtain ⟨p, hp, hpv⟩ := hvin
        rw [← hpv, mkGuardVia_hi] at hhi
        exact absurd hhi hbl
  · rintro ⟨hodd, hmem⟩
    refine ⟨mkGuardVia w (collectVia w
      [oct_vert (round_up ((hl : ℝ) * Real.sqrt 2)) 0 4 w 0 0,
       oct_vert (round_up ((hl : ℝ) * Real.sqrt 2)) 0 4 w 0 1]) (ind - 1), ?_,
      mkGuardVia_lo _ _ _, by rw [mkGuardVia_hi]; ring⟩
    rw [List.mem_flatMap]
    refine ⟨ind, hmem, ?_⟩
    rw [viasForLayer_coil_odd (by omega)]
    rw [List.mem_map]
    refine ⟨_, ?_, rfl⟩
    unfold guardPath
    rw [if_pos rfl, path_botbreak_four]
    simp

/-- Witness for C4 at a concrete input with an odd coil layer. -/
theorem C4_witness :
    ∃ paths len vias, draw_sqr_guardring 100 10 20 5 [4, 5] .R0 = .ok (paths, len, vias) ∧
      ((∃ v ∈ vias, v.lo = 5 - 1 ∧ v.hi = 5) ↔ ((5 : ℤ) % 2 = 1 ∧ (5 : ℤ) ∈ [(4 : ℤ), 5])) :=
  C4_stitch_parity 100 10 20 5 [4, 5] (by norm_num) (by norm_num)

/-- C4 counterexample: with an even coil layer (4) and rings on layers [3, 4],
no via at all is emitted — in particular the stitching via between layer 3 and
the coil layer 4 is skipped, although the claim says it is drawn when the coil
layer id is even. -/
theorem C4_counterexample :
    ∃ paths len, draw_sqr_guardring 100 10 20 4 [3, 4] .R0 = .ok (paths, len, []) := by
  have h3 : viasForLayer 10
      (guardPath (round_up (((100 : ℤ) : ℝ) * Real.sqrt 2)) 10 20 4 3) 3 4 = [] :=
    viasForLayer_below (by norm_num)
  have h4 : viasForLayer 10
      (guardPath (round_up (((100 : ℤ) : ℝ) * Real.sqrt 2)) 10 20 4 4) 4 4 = [] :=
    viasForLayer_coil_even (by norm_num)
  have h := sqr_R0_eval 100 10 20 4 [3, 4] (by norm_num) (by norm_num)
  rw [show (([3, 4] : List ℤ).flatMap (fun lay =>
      viasForLayer 10 (guardPath (round_up (((100 : ℤ) : ℝ) * Real.sqrt 2)) 10 20 4 lay)
        lay 4)) = [] by
      simp only [List.flatMap_cons, List.flatMap_nil, h3, h4, List.append_nil]] at h
  exact ⟨_, _, h⟩

/-! ### Structure of `_draw_ind_ring` for orientation R0 -/

theorem ring_R0_eval (hl w s : ℤ) (turn : ℕ) (n_conn cw o ind : ℤ) (ll : List ℤ)
    (pin : ℤ) (h3 : n_conn ≠ 1) (h1 : ¬(ll.length = 0))
    (h2 : ¬((ll.length : ℤ) ≠ ll.getLastD 0 - ll.headD 0 + 1)) :
    draw_ind_ring hl w s turn n_conn cw o ind ll pin .R0 =
      .ok ((List.range turn).map (fun (i : ℕ) =>
             ll.map (guardPath (round_up (((hl + (i : ℤ) * (w + s) : ℤ) : ℝ) * Real.sqrt 2))
               w o ind)),
           (List.range turn).map (fun (i : ℕ) =>
             ((((ll.map (guardPath
                   (round_up (((hl + (i : ℤ) * (w + s) : ℤ) : ℝ) * Real.sqrt 2))
                   w o ind)).getLastD []).headD []).headD (0, 0)).1)) := by
  unfold draw_ind_ring
  rw [if_neg h3]
  rw [eMapM_ok_of (fun (i : ℕ) (_ : i ∈ List.range turn) =>
    sqr_R0_eval (hl + (i : ℤ) * (w + s)) w o ind ll h1 h2)]
  simp [List.map_map]

/-- The guard-ring length of ring index `i`, evaluated exactly. -/
theorem ringLen_eval (hl w s o ind : ℤ) (ll : List ℤ) (hne : ll ≠ []) (i : ℕ)
    (hh : 1 ≤ hl + (i : ℤ) * (w + s)) :
    ((((ll.map (guardPath (round_up (((hl + (i : ℤ) * (w + s) : ℤ) : ℝ) * Real.sqrt 2))
        w o ind)).getLastD []).headD []).headD (0, 0)).1 =
      2 * (hl + (i : ℤ) * (w + s)) + 2 + w / 2 := by
  rw [getLastD_map _ [] 0 ll hne, guardPath_headD]
  simp only [List.headD_cons]
  exact guard_c0x (hl + (i : ℤ) * (w + s)) w hh

/-! ### Claim C5 -/

/-- C5 (amended): `_draw_ind_ring` (orientation R0) returns exactly `t`
concentric square ring polygon sets whose full lengths grow by exactly
`2*(width+spacing)` between consecutive rings (half-lengths by one pitch), and
every ring's coil-layer polygon — not only the innermost one — carries exactly
one lead-escape gap of the requested opening width, while the polygons on the
other layers are closed. -/
theorem C5_ring_structure (hl w s : ℤ) (turn : ℕ) (n_conn cw o ind : ℤ) (ll : List ℤ)
    (pin : ℤ) (hhl : 1 ≤ hl) (hpitch : 0 ≤ w + s) (hconn : n_conn ≠ 1) (hop : 0 < o)
    (h1 : ¬(ll.length = 0)) (h2 : ¬((ll.length : ℤ) ≠ ll.getLastD 0 - ll.headD 0 + 1)) :
    ∃ rings lens, draw_ind_ring hl w s turn n_conn cw o ind ll pin .R0 = .ok (rings, lens) ∧
      rings.length = turn ∧ lens.length = turn ∧
      (∀ i < turn, lens.getD i 0 = 2 * (hl + (i : ℤ) * (w + s)) + 2 + w / 2) ∧
      (∀ i, i + 1 < turn → lens.getD (i + 1) 0 - lens.getD i 0 = 2 * (w + s)) ∧
      (∀ i < turn, ∀ j, (hj : j < ll.length) →
        (ll.getD j 0 = ind →
          ¬ polyClosed ((rings.getD i []).getD j []) ∧
          ringGapWidth ((rings.getD i []).getD j []) = o) ∧
        (ll.getD j 0 ≠ ind → polyClosed ((rings.getD i []).getD j []))) := by
  have hne : ll ≠ [] := by
    intro hc
    subst hc
    exact h1 rfl
  have hhi : ∀ i : ℕ, 1 ≤ hl + (i : ℤ) * (w + s) := by
    intro i
    have : (0 : ℤ) ≤ (i : ℤ) * (w + s) := mul_nonneg (by positivity) hpitch
    omega
  have hlen : ∀ i < turn,
      ((List.range turn).map (fun (i : ℕ) =>
        ((((ll.map (guardPath
              (round_up (((hl + (i : ℤ) * (w + s) : ℤ) : ℝ) * Real.sqrt 2))
              w o ind)).getLastD []).headD []).headD (0, 0)).1)).getD i 0 =
      2 * (hl + (i : ℤ) * (w + s)) + 2 + w / 2 := by
    intro i hi
    rw [getD_map_range _ hi]
    exact ringLen_eval hl w s o ind ll hne i (hhi i)
  refine ⟨_, _, ring_R0_eval hl w s turn n_conn cw o ind ll pin hconn h1 h2,
    by simp, by simp, hlen, ?_, ?_⟩
  · intro i hi
    rw [hlen (i + 1) hi, hlen i (by omega)]
    push_cast
    ring
  · intro i hi j hj
    rw [getD_map_range _ hi, getD_map_lt _ ll hj [] 0]
    constructor
    · intro hjind
      rw [hjind]
      unfold guardPath
      rw [if_pos rfl]
      exact ⟨botbreak_not_closed _ _ _ _ _ hop, botbreak_gap _ _ _ _ _⟩
    · intro hjind
      unfold guardPath
      rw [if_neg hjind]
      exact mode0_polyClosed _ _ _ _

/-- Witness for C5 at a concrete input. -/
theorem C5_witness :
    ∃ rings lens, draw_ind_ring 100 10 20 2 2 5 3000 5 [4, 5] 7 .R0 = .ok (rings, lens) ∧
      rings.length = 2 ∧ lens.length = 2 ∧
      (∀ i < 2, lens.getD i 0 = 2 * (100 + (i : ℤ) * (10 + 20)) + 2 + 10 / 2) ∧
      (∀ i, i + 1 < 2 → lens.getD (i + 1) 0 - lens.getD i 0 = 2 * (10 + 20)) ∧
      (∀ i < 2, ∀ j, (hj : j < ([(4 : ℤ), 5]).length) →
        (([(4 : ℤ), 5]).getD j 0 = 5 →
          ¬ polyClosed ((rings.getD i []).getD j []) ∧
          ringGapWidth ((rings.getD i []).getD j []) = 3000) ∧
        (([(4 : ℤ), 5]).getD j 0 ≠ 5 → polyClosed ((rings.getD i []).getD j []))) :=
  C5_ring_structure 100 10 20 2 2 5 3000 5 [4, 5] 7 (by norm_num) (by norm_num)
    (by norm_num) (by norm_num) (by norm_num) (by norm_num)

/-- C5 counterexample: with two rings, the coil-layer polygon of the outer
ring (index 1, not the innermost) is not closed either — contradicting the
claim that only the innermost ring carries the lead-escape gap. -/
theorem C5_counterexample :
    ∃ rings lens, draw_ind_ring 100 10 20 2 2 5 3000 5 [4, 5] 7 .R0 = .ok (rings, lens) ∧
      ¬ polyClosed ((rings.getD 1 []).getD 1 []) := by
  refine ⟨_, _, ring_R0_eval 100 10 20 2 2 5 3000 5 [4, 5] 7 (by norm_num) (by norm_num)
    (by norm_num), ?_⟩
  rw [getD_map_range _ (show (1 : ℕ) < 2 by norm_num)]
  rw [getD_map_lt _ [4, 5] (show (1 : ℕ) < ([(4 : ℤ), 5]).length by norm_num) [] 0]
  rw [show ([(4 : ℤ), 5]).getD 1 0 = 5 from rfl]
  unfold guardPath
  rw [if_pos rfl]
  exact botbreak_not_closed _ _ _ _ _ (by norm_num)

/-! ### Claim C9 -/

theorem sqr_error_msgs {hl w o ind : ℤ} {ll : List ℤ} {orient : Orient} {e : String}
    (h : draw_sqr_guardring hl w o ind ll orient = .error e) :
    e = "Layer list should not be empty" ∨
    e = "All layer should be adjacent, from low to high" ∨
    e = "Not supported" ∨ e = "Other modes are not done yet." := by
  unfold draw_sqr_guardring at h
  by_cases hA : ll.length = 0
  · rw [if_pos hA] at h
    simp at h
    tauto
  · rw [if_neg hA] at h
    by_cases hB : (ll.length : ℤ) ≠ ll.getLastD 0 - ll.headD 0 + 1
    · rw [if_pos hB] at h
      simp at h
      tauto
    · rw [if_neg hB] at h
      cases hm : eMapM (fun lay =>
          guardLayerPath (round_up ((hl : ℝ) * Real.sqrt 2)) w o ind lay orient) ll with
      | error e2 =>
        rw [hm] at h
        simp at h
        obtain ⟨lay, _, hlay⟩ := eMapM_error hm
        rw [← h]
        have := guardLayerPath_error hlay
        tauto
      | ok paths =>
        rw [hm] at h
        simp at h

/-- C9 (amended): `_draw_ind_ring` raises its connection-point ValueError if
and only if `n_conn` is exactly 1; any other value — including 0 and negative
values, which are also `<= 1` — passes the check. -/
theorem C9_conn_check (hl w s : ℤ) (turn : ℕ) (n_conn cw o ind pin : ℤ) (ll : List ℤ)
    (orient : Orient) :
    (draw_ind_ring hl w s turn n_conn cw o ind ll pin orient =
      .error "number of connection points should be larger than 1.") ↔ n_conn = 1 := by
  constructor
  · intro h
    by_contra hne
    unfold draw_ind_ring at h
    rw [if_neg hne] at h
    cases hm : eMapM (fun (idx : ℕ) =>
        draw_sqr_guardring (hl + (idx : ℤ) * (w + s)) w o ind ll orient)
        (List.range turn) with
    | error e =>
      rw [hm] at h
      simp at h
      obtain ⟨idx, _, hidx⟩ := eMapM_error hm
      have hmsg := sqr_error_msgs hidx
      rw [h] at hmsg
      rcases hmsg with hx | hx | hx | hx <;> simp at hx
    | ok rings =>
      rw [hm] at h
      simp at h
  · intro h
    unfold draw_ind_ring
    rw [if_pos h]

/-- C9 counterexample: with `n_conn = 0 <= 1` the generator does not raise at
all — it returns its ring geometry — although the claim requires a ValueError
for every `n_conn <= 1`. -/
theorem C9_counterexample :
    ∃ v, draw_ind_ring 100 10 20 2 0 5 3000 5 [4, 5] 7 .R0 = .ok v :=
  ⟨_, ring_R0_eval 100 10 20 2 0 5 3000 5 [4, 5] 7 (by norm_num) (by norm_num)
    (by norm_num)⟩

/-! ### Claim C10 -/

theorem eMapM_first_error {α β : Type} {f : α → Except String β} {e : String} :
    ∀ {l : List α} (a : α), a ∈ l → f a = .error e →
      (∀ b ∈ l, (∃ c, f b = .ok c) ∨ f b = .error e) → eMapM f l = .error e
  | [], a, ha, _, _ => absurd ha (List.not_mem_nil a)
  | b :: bs, a, ha, hfa, hall => by
    rcases hall b (List.mem_cons_self b bs) with ⟨c, hc⟩ | hb
    · have hab : a ≠ b := by
        intro hEq
        subst hEq
        rw [hfa] at hc
        cases hc
      have ha2 : a ∈ bs := by
        rcases List.mem_cons.mp ha with hEq | hmem
        · exact absurd hEq hab
        · exact hmem
      rw [eMapM, hc,
        eMapM_first_error a ha2 hfa (fun x hx => hall x (List.mem_cons_of_mem b hx))]
    · rw [eMapM, hb]

/-- C10: `_draw_ind_turn` raises for a single-turn coil with any orientation
other than R0/R270; `get_octpath_coord` succeeds exactly for modes in
`{0..12, 14}` and raises otherwise — in particular for mode 13, which
`draw_sqr_guardring` selects for orientation R90 on the coil layer, so that a
R90 guard ring whose layer list contains the coil layer raises before any
geometry is returned. -/
theorem C10_unsupported_config :
    (∀ orient : Orient, orient ≠ .R0 → orient ≠ .R270 →
      draw_ind_turn_mode 0 1 orient = .error "orient is not supported yet.") ∧
    (∀ (radius : ℤ) (turn : ℕ) (n_side : ℕ) (w s bo t_o vw : ℤ) (mode : ℕ),
      (get_octpath_coord radius turn n_side w s bo t_o vw mode).isOk = true ↔
        (mode ≤ 12 ∨ mode = 14)) ∧
    (∀ ind : ℤ, guardMode ind ind .R90 = .ok 13) ∧
    (∀ (hl w o ind : ℤ) (ll : List ℤ), ¬(ll.length = 0) →
      ¬((ll.length : ℤ) ≠ ll.getLastD 0 - ll.headD 0 + 1) → ind ∈ ll →
      draw_sqr_guardring hl w o ind ll .R90 = .error "Other modes are not done yet.") := by
  refine ⟨?_, oct_isOk_iff, guardMode_coil_R90, ?_⟩
  · intro orient h0 h270
    unfold draw_ind_turn_mode
    rw [if_pos ⟨rfl, rfl⟩, if_neg h0, if_neg h270]
  · intro hl w o ind ll h1 h2 hmem
    unfold draw_sqr_guardring
    rw [if_neg h1, if_neg h2]
    have hall : ∀ b ∈ ll,
        (∃ c, guardLayerPath (round_up ((hl : ℝ) * Real.sqrt 2)) w o ind b .R90 = .ok c) ∨
        guardLayerPath (round_up ((hl : ℝ) * Real.sqrt 2)) w o ind b .R90 =
          .error "Other modes are not done yet." := by
      intro b hb
      by_cases hbi : b = ind
      · subst hbi
        right
        exact guardLayerPath_R90_coil _ w o b
      · left
        exact ⟨_, guardLayerPath_R90_off _ w o ind b hbi⟩
    rw [eMapM_first_error ind hmem (guardLayerPath_R90_coil _ w o ind) hall]

/-- Witness for C10 at concrete inputs. -/
theorem C10_witness :
    draw_ind_turn_mode 0 1 .R90 = .error "orient is not supported yet." ∧
    ((get_octpath_coord 100 0 8 2 1 5 0 0 13).isOk = true ↔ (13 ≤ 12 ∨ 13 = 14)) ∧
    guardMode 5 5 .R90 = .ok 13 ∧
    draw_sqr_guardring 100 10 20 5 [4, 5] .R90 = .error "Other modes are not done yet." :=
  ⟨C10_unsupported_config.1 .R90 (by decide) (by decide),
   C10_unsupported_config.2.1 100 0 8 2 1 5 0 0 13,
   C10_unsupported_config.2.2.1 5,
   C10_unsupported_config.2.2.2 100 10 20 5 [4, 5] (by norm_num) (by norm_num) (by simp)⟩

end Bag3
